import Mathlib

/-!
# Verification of the libevent core event loop (event.c)

A shallow embedding of the core data structures and operations of the
event loop in src/event.c, together with theorems settling the claims
about event bookkeeping, registration, deletion, activation, the
active-queue drain and timer correction.

Modelling conventions:
* Events are caller-owned structures referenced by the loop; we model the
  set of caller-allocated events as an association list from an identity
  (a natural number standing for the address of the struct) to the event
  record.  The loop's queues hold identities.
* `struct timeval` values are modelled as total microsecond counts (Int).
  The evutil timer macros (evutil.c / evutil.h are not part of src/) are
  modelled from the spec: timeradd is addition, timersub subtraction,
  timercmp integer comparison.
* The timer min-heap (min_heap.h is not part of src/) is modelled from the
  spec as the list of member identities in array order: push appends,
  erase removes the element; the binary-heap ordering is the separate
  `MinHeapOK` predicate.
* The backend (`evsel->add` / `evsel->del`) and `min_heap_reserve` results
  are oracles passed in as booleans; `gettime` is a parameter `now`.
* `ev_pncalls` in C is a pointer to the drain's stack-local `ncalls`
  cell; we model the pointer together with the cell it points at as
  `Option Nat` on the event (`none` = NULL pointer).
* `event_errx` aborts the process; operations return `Option`, with
  `none` for the fatal paths.
-/

set_option maxHeartbeats 1000000

namespace LibeventCore

/-- Modelled from the spec: the event interest mask bits of event.h
(not part of src/): `{TIMEOUT, READ, WRITE, SIGNAL, PERSIST}`. -/
def EV_TIMEOUT : Nat := 1

/-- EV_READ interest bit. -/
def EV_READ : Nat := 2

/-- EV_WRITE interest bit. -/
def EV_WRITE : Nat := 4

/-- EV_SIGNAL interest bit. -/
def EV_SIGNAL : Nat := 8

/-- EV_PERSIST flag bit. -/
def EV_PERSIST : Nat := 16

/-- The lifecycle flag bits EVLIST_* of `ev_flags`, one boolean per bit
(EVLIST_TIMEOUT, EVLIST_INSERTED, EVLIST_ACTIVE, EVLIST_INTERNAL,
EVLIST_INIT). -/
structure EvFlags where
  inserted : Bool
  active : Bool
  timeout : Bool
  internal : Bool
  evinit : Bool
  deriving DecidableEq, Repr

/-- The queue argument of event_queue_insert / event_queue_remove: always
one of the single bits EVLIST_INSERTED, EVLIST_ACTIVE, EVLIST_TIMEOUT at
every call site. -/
inductive Queue where
  | inserted
  | active
  | timeout
  deriving DecidableEq, Repr

/-- `ev_flags & queue` for a single-bit queue constant. -/
def flagsHas (f : EvFlags) : Queue → Bool
  | .inserted => f.inserted
  | .active => f.active
  | .timeout => f.timeout

/-- `ev_flags |= queue`. -/
def flagsSet (f : EvFlags) : Queue → EvFlags
  | .inserted => { f with inserted := true }
  | .active => { f with active := true }
  | .timeout => { f with timeout := true }

/-- `ev_flags &= ~queue`. -/
def flagsClear (f : EvFlags) : Queue → EvFlags
  | .inserted => { f with inserted := false }
  | .active => { f with active := false }
  | .timeout => { f with timeout := false }

/-- `struct event`: interest mask `ev_events`, priority `ev_pri`,
lifecycle flags `ev_flags`, absolute deadline `ev_timeout` (µs),
triggered mask `ev_res`, pending call counter `ev_ncalls`, the abort
channel `ev_pncalls` (pointer plus pointed-at cell), and whether
`ev_base` is non-NULL (single-loop model). -/
structure Event where
  ev_events : Nat
  ev_pri : Nat
  ev_flags : EvFlags
  ev_timeout : Int
  ev_res : Nat
  ev_ncalls : Nat
  ev_pncalls : Option Nat
  hasBase : Bool
  deriving DecidableEq, Repr

/-- `struct event_base`: the store of caller-allocated events keyed by
identity, the registered list `eventqueue`, the timer heap contents in
array order, the priority queues `activequeues` (length = nactivequeues),
the two counters, the last-wait time `event_tv` and the break flag. -/
structure Base where
  store : List (Nat × Event)
  eventqueue : List Nat
  timeheap : List Nat
  activequeues : List (List Nat)
  event_count : Int
  event_count_active : Int
  event_tv : Int
  event_break : Bool
  deriving DecidableEq, Repr

/-- Dereference an event identity in the store. -/
def lookupEv (base : Base) (id : Nat) : Option Event :=
  (base.store.find? (fun p => p.1 == id)).map (fun p => p.2)

/-- Mutate the event struct behind an identity. -/
def updateEv (base : Base) (id : Nat) (f : Event → Event) : Base :=
  { base with store := base.store.map (fun p => if p.1 = id then (p.1, f p.2) else p) }

/-- activequeues[i] (the empty list when out of range). -/
def getQ (qs : List (List Nat)) (i : Nat) : List Nat :=
  qs.getD i []

/-- Replace activequeues[i]. -/
def setQ (qs : List (List Nat)) (i : Nat) (l : List Nat) : List (List Nat) :=
  qs.set i l

/-- Modelled from the spec: `min_heap_push` places the new element in the
backing array (the heap ordering itself is the `MinHeapOK` predicate). -/
def min_heap_push (h : List Nat) (id : Nat) : List Nat :=
  h ++ [id]

/-- Modelled from the spec: `min_heap_erase` removes the element from the
backing array. -/
def min_heap_erase (h : List Nat) (id : Nat) : List Nat :=
  h.erase id

/-- event_queue_remove: check the flag (event_errx → `none` when absent),
decrement `event_count` for non-internal events, clear the flag and
unlink from the matching structure. -/
def event_queue_remove (base : Base) (id : Nat) (q : Queue) : Option Base :=
  match lookupEv base id with
  | none => none
  | some ev =>
    if flagsHas ev.ev_flags q = false then
      none
    else
      let base1 := if ev.ev_flags.internal = false then
          { base with event_count := base.event_count - 1 } else base
      let base2 := updateEv base1 id (fun e => { e with ev_flags := flagsClear e.ev_flags q })
      match q with
      | .inserted => some { base2 with eventqueue := base2.eventqueue.erase id }
      | .active => some { base2 with
          event_count_active := base2.event_count_active - 1,
          activequeues := setQ base2.activequeues ev.ev_pri
            ((getQ base2.activequeues ev.ev_pri).erase id) }
      | .timeout => some { base2 with timeheap := min_heap_erase base2.timeheap id }

/-- event_queue_insert: double insertion returns silently for ACTIVE and
is fatal (event_errx → `none`) otherwise; increment `event_count` for
non-internal events, set the flag and link into the matching structure. -/
def event_queue_insert (base : Base) (id : Nat) (q : Queue) : Option Base :=
  match lookupEv base id with
  | none => none
  | some ev =>
    if flagsHas ev.ev_flags q = true then
      if q = Queue.active then some base else none
    else
      let base1 := if ev.ev_flags.internal = false then
          { base with event_count := base.event_count + 1 } else base
      let base2 := updateEv base1 id (fun e => { e with ev_flags := flagsSet e.ev_flags q })
      match q with
      | .inserted => some { base2 with eventqueue := base2.eventqueue ++ [id] }
      | .active => some { base2 with
          event_count_active := base2.event_count_active + 1,
          activequeues := setQ base2.activequeues ev.ev_pri
            (getQ base2.activequeues ev.ev_pri ++ [id]) }
      | .timeout => some { base2 with timeheap := min_heap_push base2.timeheap id }

/-- The oracle environment of event_add: the result of
`min_heap_reserve` (false = ENOMEM), the result of `evsel->add`
(false = -1) and the current time `gettime`. -/
structure AddEnv where
  reserveOk : Bool
  backendOk : Bool
  now : Int
  deriving DecidableEq, Repr

/-- `ev_events & (EV_READ|EV_WRITE|EV_SIGNAL)` is non-zero. -/
def hasRWS (events : Nat) : Prop :=
  events &&& (EV_READ ||| EV_WRITE ||| EV_SIGNAL) ≠ 0

instance (events : Nat) : Decidable (hasRWS events) := by
  unfold hasRWS; infer_instance

/-- The timeout block of event_add (`if (res != -1 && tv != NULL)`):
drop an existing heap entry (re-arming), drop an ACTIVE link caused by a
previous timeout firing (aborting a pending call sequence through
`pncalls`), set `ev_timeout = now + tv` and push onto the heap. -/
def event_add_timeout (now t : Int) (base1 : Base) (id : Nat) : Option Base :=
  match lookupEv base1 id with
  | none => none
  | some ev1 =>
    let s2 : Option Base :=
      if ev1.ev_flags.timeout = true then
        event_queue_remove base1 id Queue.timeout
      else some base1
    match s2 with
    | none => none
    | some base2 =>
      match lookupEv base2 id with
      | none => none
      | some ev2 =>
        let s3 : Option Base :=
          if ev2.ev_flags.active = true ∧ ev2.ev_res &&& EV_TIMEOUT ≠ 0 then
            let base2a :=
              if ev2.ev_ncalls ≠ 0 ∧ ev2.ev_pncalls ≠ none then
                updateEv base2 id (fun e => { e with ev_pncalls := some 0 })
              else base2
            event_queue_remove base2a id Queue.active
          else some base2
        match s3 with
        | none => none
        | some base3 =>
          let base4 := updateEv base3 id
            (fun e => { e with ev_timeout := now + t })
          event_queue_insert base4 id Queue.timeout

/-- event_add: reserve a heap slot for a fresh timeout first (fail
atomically on ENOMEM), register fd/signal interest with the backend when
not INSERTED or ACTIVE (insert into the registered list on success), and
when the previous steps did not fail and a timeout was supplied, run the
timeout block.  Returns the C result (0 or -1) with the updated base. -/
def event_add (env : AddEnv) (base : Base) (id : Nat) (tv : Option Int) : Option (Int × Base) :=
  match lookupEv base id with
  | none => none
  | some ev =>
    if tv.isSome = true ∧ ev.ev_flags.timeout = false ∧ env.reserveOk = false then
      some (-1, base)
    else
      let step1 : Option (Int × Base) :=
        if hasRWS ev.ev_events ∧ ev.ev_flags.inserted = false ∧ ev.ev_flags.active = false then
          if env.backendOk = true then
            (event_queue_insert base id Queue.inserted).map (fun b => ((0 : Int), b))
          else some (-1, base)
        else some (0, base)
      match step1 with
      | none => none
      | some (res, base1) =>
        match tv with
        | none => some (res, base1)
        | some t =>
          if res = -1 then some (res, base1)
          else (event_add_timeout env.now t base1 id).map (fun b => (res, b))

/-- event_del: an event whose `ev_base` is NULL has never been added,
return -1.  Otherwise abort a pending call sequence through `pncalls`,
and unlink from the timer heap, the priority queue and the registered
list according to the flags; only the INSERTED case consults the backend
(`delOk` oracle) for the result. -/
def event_del (delOk : Bool) (base : Base) (id : Nat) : Option (Int × Base) :=
  match lookupEv base id with
  | none => none
  | some ev =>
    if ev.hasBase = false then some (-1, base)
    else
      let base1 :=
        if ev.ev_ncalls ≠ 0 ∧ ev.ev_pncalls ≠ none then
          updateEv base id (fun e => { e with ev_pncalls := some 0 })
        else base
      match lookupEv base1 id with
      | none => none
      | some ev1 =>
        let s2 : Option Base :=
          if ev1.ev_flags.timeout = true then
            event_queue_remove base1 id Queue.timeout
          else some base1
        match s2 with
        | none => none
        | some base2 =>
          match lookupEv base2 id with
          | none => none
          | some ev2 =>
            let s3 : Option Base :=
              if ev2.ev_flags.active = true then
                event_queue_remove base2 id Queue.active
              else some base2
            match s3 with
            | none => none
            | some base3 =>
              match lookupEv base3 id with
              | none => none
              | some ev3 =>
                if ev3.ev_flags.inserted = true then
                  (event_queue_remove base3 id Queue.inserted).map
                    (fun b => ((if delOk then (0 : Int) else -1), b))
                else some (0, base3)

/-- event_active: an event already ACTIVE only accumulates the trigger
mask into `ev_res` (the `ncalls` argument is dropped); otherwise set
`ev_res`, `ev_ncalls`, clear `ev_pncalls` and link into the priority
queue. -/
def event_active (base : Base) (id : Nat) (res : Nat) (ncalls : Nat) : Option Base :=
  match lookupEv base id with
  | none => none
  | some ev =>
    if ev.ev_flags.active = true then
      some (updateEv base id (fun e => { e with ev_res := e.ev_res ||| res }))
    else
      let base1 := updateEv base id
        (fun e => { e with ev_res := res, ev_ncalls := ncalls, ev_pncalls := none })
      event_queue_insert base1 id Queue.active

/-- Subtract `off` from the deadline of every event in the timer heap
(the for loop over `timeheap.p`). -/
def correctHeap (base : Base) (off : Int) : Base :=
  base.timeheap.foldl
    (fun b id => updateEv b id (fun e => { e with ev_timeout := e.ev_timeout - off })) base

/-- timeout_correct: nothing to do with a monotonic clock; read `now`
(`gettime`), and when time did not run backwards only refresh
`event_tv`; otherwise subtract `off = event_tv - now` from every heap
deadline and then refresh `event_tv`. -/
def timeout_correct (useMonotonic : Bool) (now : Int) (base : Base) : Base :=
  if useMonotonic = true then base
  else if base.event_tv ≤ now then { base with event_tv := now }
  else
    let off := base.event_tv - now
    let base1 := correctHeap base off
    { base1 with event_tv := now }

/-- The scan of event_process_active that picks the first (lowest-index)
non-empty priority queue, together with its index. -/
def lowestNonEmpty : List (List Nat) → Option (Nat × List Nat)
  | [] => none
  | q :: qs =>
    if q ≠ [] then some (0, q)
    else (lowestNonEmpty qs).map (fun p => (p.1 + 1, p.2))

/-- The detach step of the drain: a PERSIST event only loses its ACTIVE
link, any other event is fully deleted via event_del (the C code ignores
the result of event_del here). -/
def drainDetach (delOk : Bool) (base : Base) (id : Nat) : Option Base :=
  match lookupEv base id with
  | none => none
  | some ev =>
    if ev.ev_events &&& EV_PERSIST ≠ 0 then
      event_queue_remove base id Queue.active
    else
      (event_del delOk base id).map (fun r => r.2)

/-- `ev_res` of an event (the second callback argument). -/
def resOf (base : Base) (id : Nat) : Nat :=
  match lookupEv base id with
  | some e => e.ev_res
  | none => 0

/-- The `while (ncalls)` loop of event_process_active for one event, in
the restricted callback model where a callback's only effect is possibly
requesting a stop (raising the signal flag or `event_break`), here
merged into the single `event_break` flag.  The fuel argument equals the
drain's local `ncalls`; each round decrements it, writes it back into
`ev_ncalls` (mirrored into the pointed-at cell), invokes the callback
(recorded in the trace as (id, ev_res)), and returns early — clearing
`pncalls` — when a stop was requested.  Returns (stopped, base, trace). -/
def runCalls (raises : Bool) (id : Nat) : Nat → Base → Bool × Base × List (Nat × Nat)
  | 0, base => (false, updateEv base id (fun e => { e with ev_pncalls := none }), [])
  | n + 1, base =>
    let base1 := updateEv base id (fun e => { e with ev_ncalls := n, ev_pncalls := some n })
    let inv := (id, resOf base1 id)
    let base2 := if raises then { base1 with event_break := true } else base1
    if base2.event_break = true then
      (true, updateEv base2 id (fun e => { e with ev_pncalls := none }), [inv])
    else
      let r := runCalls raises id n base2
      (r.1, r.2.1, inv :: r.2.2)

/-- The `for (ev = TAILQ_FIRST(activeq); ...)` loop of
event_process_active over the selected queue `i`: take the head, detach
it (PERSIST keeps its registration, others are fully deleted), bind
`pncalls` to a fresh cell holding `ev_ncalls` and run the call loop;
stop the whole drain when a callback requested it.  The fuel bounds the
number of iterations (the queue loses its head each round, so the
initial queue length suffices). -/
def drainLoop (raisers : List Nat) (delOk : Bool) (i : Nat) :
    Nat → Base → Option (Base × List (Nat × Nat))
  | 0, base => some (base, [])
  | fuel + 1, base =>
    match (getQ base.activequeues i).head? with
    | none => some (base, [])
    | some id =>
      match drainDetach delOk base id with
      | none => none
      | some base1 =>
        match lookupEv base1 id with
        | none => none
        | some ev =>
          let base2 := updateEv base1 id
            (fun e => { e with ev_pncalls := some e.ev_ncalls })
          let r := runCalls (raisers.contains id) id ev.ev_ncalls base2
          if r.1 = true then some (r.2.1, r.2.2)
          else
            match drainLoop raisers delOk i fuel r.2.1 with
            | none => none
            | some (b2, t2) => some (b2, r.2.2 ++ t2)

/-- event_process_active: pick the lowest-indexed non-empty priority
queue (the assert that one exists is the `none` case) and drain it.
Returns the final base together with the trace of callback
invocations. -/
def event_process_active (raisers : List Nat) (delOk : Bool) (base : Base) :
    Option (Base × List (Nat × Nat)) :=
  match lowestNonEmpty base.activequeues with
  | none => none
  | some (i, q) => drainLoop raisers delOk i q.length base

/-- One API call of the add/del interface, with its oracle inputs. -/
inductive LoopOp where
  | add (env : AddEnv) (id : Nat) (tv : Option Int)
  | del (delOk : Bool) (id : Nat)
  deriving DecidableEq, Repr

/-- Run one API call, keeping only the state. -/
def runOp (base : Base) : LoopOp → Option Base
  | .add env id tv => (event_add env base id tv).map (fun r => r.2)
  | .del delOk id => (event_del delOk base id).map (fun r => r.2)

/-- Run a sequence of API calls. -/
def runOps : List LoopOp → Base → Option Base
  | [], base => some base
  | op :: ops, base =>
    match runOp base op with
    | none => none
    | some base1 => runOps ops base1

/-- The number of queue memberships an event contributes to
`event_count`: one for each of the INSERTED, ACTIVE, TIMEOUT flags,
nothing for internal events. -/
def evWeight (e : Event) : Int :=
  if e.ev_flags.internal = true then 0
  else
    (if e.ev_flags.inserted = true then 1 else 0)
    + (if e.ev_flags.active = true then 1 else 0)
    + (if e.ev_flags.timeout = true then 1 else 0)

/-- What the code maintains: the total number of queue memberships of
non-internal events. -/
def memberCount (base : Base) : Int :=
  (base.store.map (fun p => evWeight p.2)).sum

/-- What the claim states (stated from the spec's words, for
comparison): the number of non-internal events having at least one of
INSERTED or TIMEOUT set, each counted once. -/
def claimedEventCount (base : Base) : Int :=
  ((base.store.filter
    (fun p => p.2.ev_flags.internal = false
      ∧ (p.2.ev_flags.inserted = true ∨ p.2.ev_flags.timeout = true))).length : Int)

/-- The deadline stored at position `i` of the heap array (0 when out of
range; heap members are always in the store in well-formed states). -/
def heapDl (base : Base) (i : Nat) : Int :=
  match base.timeheap.get? i with
  | none => 0
  | some id =>
    match lookupEv base id with
    | none => 0
    | some e => e.ev_timeout

/-- Modelled from the spec: the binary min-heap ordering of the timer
heap array — every parent deadline is at most its children's. -/
def MinHeapOK (base : Base) : Prop :=
  ∀ i j : Nat, (j = 2 * i + 1 ∨ j = 2 * i + 2) → j < base.timeheap.length →
    heapDl base i ≤ heapDl base j

/-! ## Characterization of the queue operations -/

/-- The result state of a successful event_queue_remove. -/
def remBase (b : Base) (id : Nat) (ev : Event) (q : Queue) : Base :=
  let base1 := if ev.ev_flags.internal = false then
      { b with event_count := b.event_count - 1 } else b
  let base2 := updateEv base1 id (fun e => { e with ev_flags := flagsClear e.ev_flags q })
  match q with
  | .inserted => { base2 with eventqueue := base2.eventqueue.erase id }
  | .active => { base2 with
      event_count_active := base2.event_count_active - 1,
      activequeues := setQ base2.activequeues ev.ev_pri
        ((getQ base2.activequeues ev.ev_pri).erase id) }
  | .timeout => { base2 with timeheap := min_heap_erase base2.timeheap id }

/-- The result state of a successful (non-double) event_queue_insert. -/
def insBase (b : Base) (id : Nat) (ev : Event) (q : Queue) : Base :=
  let base1 := if ev.ev_flags.internal = false then
      { b with event_count := b.event_count + 1 } else b
  let base2 := updateEv base1 id (fun e => { e with ev_flags := flagsSet e.ev_flags q })
  match q with
  | .inserted => { base2 with eventqueue := base2.eventqueue ++ [id] }
  | .active => { base2 with
      event_count_active := base2.event_count_active + 1,
      activequeues := setQ base2.activequeues ev.ev_pri
        (getQ base2.activequeues ev.ev_pri ++ [id]) }
  | .timeout => { base2 with timeheap := min_heap_push base2.timeheap id }


/-- The bookkeeping invariant of `event_count` together with
preservation of the store keys. -/
def CountOK (b : Base) : Prop :=
  b.event_count = memberCount b


/-! ## Concrete sample states -/

/-- A fresh non-internal READ-interest event bound to the loop. -/
def sampleEv : Event :=
  { ev_events := EV_READ, ev_pri := 0,
    ev_flags := { inserted := false, active := false, timeout := false,
                  internal := false, evinit := true },
    ev_timeout := 0, ev_res := 0, ev_ncalls := 0, ev_pncalls := none, hasBase := true }

/-- A fresh loop owning one priority queue, with event 0 allocated. -/
def sampleBase : Base :=
  { store := [(0, sampleEv)], eventqueue := [], timeheap := [], activequeues := [[]],
    event_count := 0, event_count_active := 0, event_tv := 0, event_break := false }

/-- Oracles: reservation and backend registration succeed, now = 100. -/
def sampleEnv : AddEnv := { reserveOk := true, backendOk := true, now := 100 }

/-- The operation sequence of the C1 witness: add with a timeout, then del. -/
def c1Ops : List LoopOp := [LoopOp.add sampleEnv 0 (some 50), LoopOp.del true 0]

/-- The state after running `c1Ops` on the sample loop. -/
def c1Final : Base := (runOps c1Ops sampleBase).getD sampleBase

/-- Oracles with a failing heap reservation (ENOMEM). -/
def c2Env : AddEnv := { reserveOk := false, backendOk := true, now := 100 }

/-- An event that was never bound to a loop (`ev_base == NULL`). -/
def unboundEv : Event := { sampleEv with hasBase := false }

/-- A loop whose store holds only the unbound event 0. -/
def unboundBase : Base := { sampleBase with store := [(0, unboundEv)] }

/-- An event that is ACTIVE with a pending call and a triggered mask. -/
def c9Ev : Event :=
  { sampleEv with
    ev_flags := { inserted := false, active := true, timeout := false,
                  internal := false, evinit := true },
    ev_res := 1, ev_ncalls := 1 }

/-- A loop with event 0 active in priority queue 0. -/
def c9Base : Base :=
  { sampleBase with
    store := [(0, c9Ev)], activequeues := [[0]],
    event_count := 1, event_count_active := 1 }

/-- A pure timer event sitting in the timer heap with deadline 150. -/
def timerEv : Event :=
  { sampleEv with
    ev_events := 0,
    ev_flags := { inserted := false, active := false, timeout := true,
                  internal := false, evinit := true },
    ev_timeout := 150 }

/-- A wall-clock loop with event 0 in the timer heap and last-wait time
150 (the clock will be observed at 120, i.e. moved backwards). -/
def timerBase : Base :=
  { sampleBase with
    store := [(0, timerEv)], timeheap := [0], event_count := 1, event_tv := 150 }

/-- The state after re-arming the heap-resident event 0 with timeout 50. -/
def c7Final : Base :=
  ((event_add sampleEnv timerBase 0 (some 50)).getD ((0 : Int), timerBase)).2

/-- Well-formedness of a loop state: unique store keys, duplicate-free
queues, lifecycle flags matching queue membership, active events linked
in the queue of their own priority only, queues referencing stored
events, and unbound events carrying no flags. -/
def WF (b : Base) : Prop :=
  (b.store.map Prod.fst).Nodup
  ∧ b.eventqueue.Nodup
  ∧ b.timeheap.Nodup
  ∧ (∀ i < b.activequeues.length, (getQ b.activequeues i).Nodup)
  ∧ (∀ p ∈ b.store, (p.2.ev_flags.inserted = true ↔ p.1 ∈ b.eventqueue))
  ∧ (∀ p ∈ b.store, (p.2.ev_flags.timeout = true ↔ p.1 ∈ b.timeheap))
  ∧ (∀ p ∈ b.store, (p.2.ev_flags.active = true ↔ p.1 ∈ getQ b.activequeues p.2.ev_pri))
  ∧ (∀ p ∈ b.store, ∀ i < b.activequeues.length,
      p.1 ∈ getQ b.activequeues i → i = p.2.ev_pri)
  ∧ (∀ id ∈ b.eventqueue, id ∈ b.store.map Prod.fst)
  ∧ (∀ id ∈ b.timeheap, id ∈ b.store.map Prod.fst)
  ∧ (∀ i < b.activequeues.length, ∀ id ∈ getQ b.activequeues i,
      id ∈ b.store.map Prod.fst)
  ∧ (∀ p ∈ b.store, p.2.hasBase = false →
      p.2.ev_flags.inserted = false ∧ p.2.ev_flags.active = false
        ∧ p.2.ev_flags.timeout = false)

/-- A persistent READ event that is registered and active with one call. -/
def persistEv : Event :=
  { sampleEv with
    ev_events := EV_READ ||| EV_PERSIST,
    ev_flags := { inserted := true, active := true, timeout := false,
                  internal := false, evinit := true },
    ev_res := 1, ev_ncalls := 1 }

/-- A loop with the persistent event 0 in the registered list and active
in priority queue 0. -/
def persistBase : Base :=
  { sampleBase with
    store := [(0, persistEv)], eventqueue := [0], activequeues := [[0]],
    event_count := 2, event_count_active := 1 }

/-- A non-persistent READ event active with one pending call. -/
def c45Ev : Event :=
  { sampleEv with
    ev_flags := { inserted := false, active := true, timeout := false,
                  internal := false, evinit := true },
    ev_res := 1, ev_ncalls := 1 }

/-- A loop with events 0 and 1 both active at priority 0. -/
def c45Base : Base :=
  { sampleBase with
    store := [(0, c45Ev), (1, c45Ev)], activequeues := [[0, 1]],
    event_count := 2, event_count_active := 2 }

/-- The drain of `c45Base` in which event 0's callback requests a break. -/
def c45Final : Base × List (Nat × Nat) :=
  (event_process_active [0] true c45Base).getD (c45Base, [])

/-! ## Lemmas -/

theorem updateEv_eventqueue (b : Base) (id : Nat) (f : Event → Event) :
    (updateEv b id f).eventqueue = b.eventqueue := rfl

theorem updateEv_timeheap (b : Base) (id : Nat) (f : Event → Event) :
    (updateEv b id f).timeheap = b.timeheap := rfl

theorem updateEv_activequeues (b : Base) (id : Nat) (f : Event → Event) :
    (updateEv b id f).activequeues = b.activequeues := rfl

theorem updateEv_event_count (b : Base) (id : Nat) (f : Event → Event) :
    (updateEv b id f).event_count = b.event_count := rfl

theorem updateEv_event_count_active (b : Base) (id : Nat) (f : Event → Event) :
    (updateEv b id f).event_count_active = b.event_count_active := rfl

theorem updateEv_event_break (b : Base) (id : Nat) (f : Event → Event) :
    (updateEv b id f).event_break = b.event_break := rfl

theorem updateEv_keys (b : Base) (id : Nat) (f : Event → Event) :
    (updateEv b id f).store.map Prod.fst = b.store.map Prod.fst := by
  show (b.store.map _).map Prod.fst = _
  rw [List.map_map]
  apply List.map_congr_left
  intro p _
  by_cases h : p.1 = id <;> simp [h]

theorem lookupEv_updateEv_self (b : Base) (id : Nat) (f : Event → Event) :
    lookupEv (updateEv b id f) id = (lookupEv b id).map f := by
  show ((b.store.map _).find? _).map _ = _
  unfold lookupEv
  induction b.store with
  | nil => rfl
  | cons hd tl ih =>
    by_cases h : hd.1 = id
    · rw [List.map_cons, if_pos h]
      rw [List.find?_cons_of_pos _ (by simp [h]), List.find?_cons_of_pos _ (by simp [h])]
      rfl
    · rw [List.map_cons, if_neg h]
      rw [List.find?_cons_of_neg _ (by simp [h]), List.find?_cons_of_neg _ (by simp [h])]
      exact ih

theorem lookupEv_updateEv_ne (b : Base) (id : Nat) (f : Event → Event) (k : Nat)
    (hk : k ≠ id) : lookupEv (updateEv b id f) k = lookupEv b k := by
  show ((b.store.map _).find? _).map _ = _
  unfold lookupEv
  induction b.store with
  | nil => rfl
  | cons hd tl ih =>
    by_cases h : hd.1 = k
    · have hne : ¬ hd.1 = id := by rw [h]; exact hk
      rw [List.map_cons, if_neg hne]
      rw [List.find?_cons_of_pos _ (by simp [h]), List.find?_cons_of_pos _ (by simp [h])]
    · by_cases h2 : hd.1 = id
      · rw [List.map_cons, if_pos h2]
        rw [List.find?_cons_of_neg _ (by simp [h2, hk.symm]),
          List.find?_cons_of_neg _ (by simp [h])]
        exact ih
      · rw [List.map_cons, if_neg h2]
        rw [List.find?_cons_of_neg _ (by simp [h]), List.find?_cons_of_neg _ (by simp [h])]
        exact ih

theorem lookupEv_mem (b : Base) (id : Nat) (ev : Event)
    (h : lookupEv b id = some ev) : (id, ev) ∈ b.store := by
  unfold lookupEv at h
  rcases hf : b.store.find? (fun p => p.1 == id) with - | p
  · rw [hf] at h; simp at h
  · rw [hf] at h
    have hp := List.find?_some hf
    have hm := List.mem_of_find?_eq_some hf
    simp at h hp
    rw [← h, ← hp]
    exact hm

theorem lookupEv_isSome_of_mem_keys (b : Base) (id : Nat)
    (h : id ∈ b.store.map Prod.fst) : (lookupEv b id).isSome := by
  unfold lookupEv
  rcases List.mem_map.mp h with ⟨p, hp, hfst⟩
  have : (b.store.find? (fun q => q.1 == id)).isSome := by
    rw [List.find?_isSome]
    exact ⟨p, hp, by simp [hfst]⟩
  rcases Option.isSome_iff_exists.mp this with ⟨q, hq⟩
  rw [hq]; rfl

theorem mem_keys_of_lookupEv (b : Base) (id : Nat) (ev : Event)
    (h : lookupEv b id = some ev) : id ∈ b.store.map Prod.fst :=
  List.mem_map.mpr ⟨(id, ev), lookupEv_mem b id ev h, rfl⟩

theorem find_entry_eq_of_nodup (l : List (Nat × Event)) (hk : (l.map Prod.fst).Nodup)
    (id : Nat) (e : Event) (hm : (id, e) ∈ l) :
    (l.find? (fun p => p.1 == id)).map (fun p => p.2) = some e := by
  induction l with
  | nil => simp at hm
  | cons hd tl ih =>
    rw [List.map_cons, List.nodup_cons] at hk
    rcases List.mem_cons.mp hm with h | h
    · rw [← h]
      rw [List.find?_cons_of_pos _ (by simp)]
      rfl
    · have hne : hd.1 ≠ id := by
        intro he
        exact hk.1 (he ▸ List.mem_map.mpr ⟨(id, e), h, rfl⟩)
      rw [List.find?_cons_of_neg _ (by simp [hne])]
      exact ih hk.2 h

theorem store_entry_eq_of_nodup (b : Base) (hk : (b.store.map Prod.fst).Nodup)
    (id : Nat) (e : Event) (hm : (id, e) ∈ b.store) : lookupEv b id = some e :=
  find_entry_eq_of_nodup b.store hk id e hm

/-! ## Counting lemmas -/

theorem map_eq_self_of_forall (l : List (Nat × Event)) (f : Nat × Event → Nat × Event)
    (h : ∀ p ∈ l, f p = p) : l.map f = l := by
  induction l with
  | nil => rfl
  | cons hd tl ih =>
    rw [List.map_cons, h hd (by simp), ih (fun p hp => h p (by simp [hp]))]

theorem memberCount_updateEv_weight_eq (b : Base) (id : Nat) (f : Event → Event)
    (hf : ∀ e, evWeight (f e) = evWeight e) :
    memberCount (updateEv b id f) = memberCount b := by
  unfold memberCount updateEv
  rw [List.map_map]
  apply congrArg List.sum
  apply List.map_congr_left
  intro p _
  by_cases h : p.1 = id <;> simp [h, hf]

theorem sum_weight_update (l : List (Nat × Event)) (hk : (l.map Prod.fst).Nodup)
    (id : Nat) (ev : Event) (f : Event → Event) (hm : (id, ev) ∈ l) :
    ((l.map (fun p => if p.1 = id then (p.1, f p.2) else p)).map
        (fun p => evWeight p.2)).sum
      = (l.map (fun p => evWeight p.2)).sum + (evWeight (f ev) - evWeight ev) := by
  induction l with
  | nil => simp at hm
  | cons hd tl ih =>
    rw [List.map_cons, List.nodup_cons] at hk
    rcases List.mem_cons.mp hm with h | h
    · rw [← h] at hk ⊢
      have htl : tl.map (fun p => if p.1 = id then (p.1, f p.2) else p) = tl := by
        apply map_eq_self_of_forall
        intro p hp
        have hne : p.1 ≠ id := fun he => hk.1 (he ▸ List.mem_map.mpr ⟨p, hp, rfl⟩)
        rw [if_neg hne]
      simp [htl]
      omega
    · have hne : hd.1 ≠ id := fun he =>
        hk.1 (he ▸ List.mem_map.mpr ⟨(id, ev), h, rfl⟩)
      simp only [List.map_cons, if_neg hne, List.sum_cons]
      rw [ih hk.2 h]
      omega

theorem memberCount_updateEv (b : Base) (hk : (b.store.map Prod.fst).Nodup)
    (id : Nat) (ev : Event) (f : Event → Event) (hl : lookupEv b id = some ev) :
    memberCount (updateEv b id f) = memberCount b + (evWeight (f ev) - evWeight ev) :=
  sum_weight_update b.store hk id ev f (lookupEv_mem b id ev hl)

theorem evWeight_clear (e : Event) (q : Queue) (h : flagsHas e.ev_flags q = true) :
    evWeight { e with ev_flags := flagsClear e.ev_flags q }
      = evWeight e - (if e.ev_flags.internal = true then 0 else 1) := by
  cases q <;>
    simp only [evWeight, flagsClear, flagsHas] at h ⊢ <;>
    by_cases hi : e.ev_flags.internal = true <;>
    simp [h, hi] <;> omega

theorem evWeight_set (e : Event) (q : Queue) (h : flagsHas e.ev_flags q = false) :
    evWeight { e with ev_flags := flagsSet e.ev_flags q }
      = evWeight e + (if e.ev_flags.internal = true then 0 else 1) := by
  cases q <;>
    simp only [evWeight, flagsSet, flagsHas] at h ⊢ <;>
    by_cases hi : e.ev_flags.internal = true <;>
    simp [h, hi] <;> omega

theorem memberCount_eq_of_store (b b' : Base) (h : b'.store = b.store) :
    memberCount b' = memberCount b := by
  unfold memberCount; rw [h]

theorem lookupEv_eq_of_store (b b' : Base) (h : b'.store = b.store) (id : Nat) :
    lookupEv b' id = lookupEv b id := by
  unfold lookupEv; rw [h]

theorem event_queue_remove_eq (b : Base) (id : Nat) (ev : Event) (q : Queue)
    (hl : lookupEv b id = some ev) (hflag : flagsHas ev.ev_flags q = true) :
    event_queue_remove b id q = some (remBase b id ev q) := by
  unfold event_queue_remove remBase
  rw [hl]
  simp only [hflag]
  cases q <;> rfl

theorem event_queue_insert_eq (b : Base) (id : Nat) (ev : Event) (q : Queue)
    (hl : lookupEv b id = some ev) (hflag : flagsHas ev.ev_flags q = false) :
    event_queue_insert b id q = some (insBase b id ev q) := by
  unfold event_queue_insert insBase
  rw [hl]
  simp only [hflag]
  cases q <;> rfl

theorem remBase_store (b : Base) (id : Nat) (ev : Event) (q : Queue) :
    (remBase b id ev q).store
      = (updateEv b id (fun e => { e with ev_flags := flagsClear e.ev_flags q })).store := by
  cases q <;> by_cases hi : ev.ev_flags.internal = false <;> simp [remBase, hi, updateEv]

theorem insBase_store (b : Base) (id : Nat) (ev : Event) (q : Queue) :
    (insBase b id ev q).store
      = (updateEv b id (fun e => { e with ev_flags := flagsSet e.ev_flags q })).store := by
  cases q <;> by_cases hi : ev.ev_flags.internal = false <;> simp [insBase, hi, updateEv]

theorem remBase_event_count (b : Base) (id : Nat) (ev : Event) (q : Queue) :
    (remBase b id ev q).event_count
      = b.event_count - (if ev.ev_flags.internal = true then 0 else 1) := by
  cases q <;> by_cases hi : ev.ev_flags.internal = true <;>
    simp [remBase, hi, updateEv]

theorem insBase_event_count (b : Base) (id : Nat) (ev : Event) (q : Queue) :
    (insBase b id ev q).event_count
      = b.event_count + (if ev.ev_flags.internal = true then 0 else 1) := by
  cases q <;> by_cases hi : ev.ev_flags.internal = true <;>
    simp [insBase, hi, updateEv]

theorem remBase_keys (b : Base) (id : Nat) (ev : Event) (q : Queue) :
    (remBase b id ev q).store.map Prod.fst = b.store.map Prod.fst := by
  rw [remBase_store]
  cases hi : ev.ev_flags.internal <;> exact updateEv_keys _ _ _

theorem insBase_keys (b : Base) (id : Nat) (ev : Event) (q : Queue) :
    (insBase b id ev q).store.map Prod.fst = b.store.map Prod.fst := by
  rw [insBase_store]
  exact updateEv_keys _ _ _

theorem remBase_memberCount (b : Base) (id : Nat) (ev : Event) (q : Queue)
    (hk : (b.store.map Prod.fst).Nodup) (hl : lookupEv b id = some ev)
    (hflag : flagsHas ev.ev_flags q = true) :
    memberCount (remBase b id ev q)
      = memberCount b - (if ev.ev_flags.internal = true then 0 else 1) := by
  have h1 : memberCount (remBase b id ev q)
      = memberCount (updateEv b id (fun e => { e with ev_flags := flagsClear e.ev_flags q })) :=
    memberCount_eq_of_store _ _ (remBase_store b id ev q)
  rw [h1, memberCount_updateEv b hk id ev _ hl, evWeight_clear ev q hflag]
  omega

theorem insBase_memberCount (b : Base) (id : Nat) (ev : Event) (q : Queue)
    (hk : (b.store.map Prod.fst).Nodup) (hl : lookupEv b id = some ev)
    (hflag : flagsHas ev.ev_flags q = false) :
    memberCount (insBase b id ev q)
      = memberCount b + (if ev.ev_flags.internal = true then 0 else 1) := by
  have h1 : memberCount (insBase b id ev q)
      = memberCount (updateEv b id (fun e => { e with ev_flags := flagsSet e.ev_flags q })) :=
    memberCount_eq_of_store _ _ (insBase_store b id ev q)
  rw [h1, memberCount_updateEv b hk id ev _ hl, evWeight_set ev q hflag]
  omega

/-! ## Count invariant preservation -/

theorem evWeight_congr (e e' : Event) (h : e'.ev_flags = e.ev_flags) :
    evWeight e' = evWeight e := by
  unfold evWeight; rw [h]

theorem event_queue_remove_inv (b : Base) (id : Nat) (q : Queue) (b' : Base)
    (hk : (b.store.map Prod.fst).Nodup) (hinv : CountOK b)
    (hr : event_queue_remove b id q = some b') :
    CountOK b' ∧ b'.store.map Prod.fst = b.store.map Prod.fst := by
  rcases hl : lookupEv b id with - | ev
  · unfold event_queue_remove at hr; rw [hl] at hr; cases hr
  · cases hflag : flagsHas ev.ev_flags q with
    | false =>
      unfold event_queue_remove at hr; rw [hl] at hr
      simp [hflag] at hr
    | true =>
      rw [event_queue_remove_eq b id ev q hl hflag] at hr
      cases hr
      refine ⟨?_, remBase_keys b id ev q⟩
      unfold CountOK at hinv ⊢
      rw [remBase_event_count, remBase_memberCount b id ev q hk hl hflag]
      omega

theorem event_queue_insert_inv (b : Base) (id : Nat) (q : Queue) (b' : Base)
    (hk : (b.store.map Prod.fst).Nodup) (hinv : CountOK b)
    (hr : event_queue_insert b id q = some b') :
    CountOK b' ∧ b'.store.map Prod.fst = b.store.map Prod.fst := by
  rcases hl : lookupEv b id with - | ev
  · unfold event_queue_insert at hr; rw [hl] at hr; cases hr
  · cases hflag : flagsHas ev.ev_flags q with
    | true =>
      unfold event_queue_insert at hr; rw [hl] at hr
      by_cases hq : q = Queue.active
      · subst hq
        simp [hflag] at hr
        rw [← hr]
        exact ⟨hinv, rfl⟩
      · simp [hflag, hq] at hr
    | false =>
      rw [event_queue_insert_eq b id ev q hl hflag] at hr
      cases hr
      refine ⟨?_, insBase_keys b id ev q⟩
      unfold CountOK at hinv ⊢
      rw [insBase_event_count, insBase_memberCount b id ev q hk hl hflag]
      omega

theorem updateEv_inv (b : Base) (id : Nat) (f : Event → Event)
    (hf : ∀ e, (f e).ev_flags = e.ev_flags) (hinv : CountOK b) :
    CountOK (updateEv b id f)
      ∧ (updateEv b id f).store.map Prod.fst = b.store.map Prod.fst := by
  refine ⟨?_, updateEv_keys b id f⟩
  unfold CountOK at hinv ⊢
  rw [updateEv_event_count,
    memberCount_updateEv_weight_eq b id f (fun e => evWeight_congr e (f e) (hf e))]
  exact hinv

theorem event_add_timeout_inv (now t : Int) (b : Base) (id : Nat) (b' : Base)
    (hk : (b.store.map Prod.fst).Nodup) (hinv : CountOK b)
    (hr : event_add_timeout now t b id = some b') :
    CountOK b' ∧ b'.store.map Prod.fst = b.store.map Prod.fst := by
  unfold event_add_timeout at hr
  rcases hl1 : lookupEv b id with - | ev1
  · rw [hl1] at hr; cases hr
  rw [hl1] at hr
  simp only [] at hr
  have step2 : ∃ b2, (if ev1.ev_flags.timeout = true then
        event_queue_remove b id Queue.timeout else some b) = some b2
      ∧ CountOK b2 ∧ b2.store.map Prod.fst = b.store.map Prod.fst := by
    cases ht : ev1.ev_flags.timeout with
    | false => exact ⟨b, by simp, hinv, rfl⟩
    | true =>
      simp only [if_pos rfl]
      rcases hrem : event_queue_remove b id Queue.timeout with - | b2
      · rw [ht, hrem] at hr; cases hr
      · exact ⟨b2, rfl, event_queue_remove_inv b id _ b2 hk hinv hrem⟩
  rcases step2 with ⟨b2, hb2, hinv2, hkeys2⟩
  rw [hb2] at hr
  simp only [] at hr
  have hk2 : (b2.store.map Prod.fst).Nodup := by rw [hkeys2]; exact hk
  rcases hl2 : lookupEv b2 id with - | ev2
  · rw [hl2] at hr; cases hr
  rw [hl2] at hr
  simp only [] at hr
  have step3 : ∃ b3, (if ev2.ev_flags.active = true ∧ ev2.ev_res &&& EV_TIMEOUT ≠ 0 then
        event_queue_remove (if ev2.ev_ncalls ≠ 0 ∧ ev2.ev_pncalls ≠ none then
            updateEv b2 id (fun e => { e with ev_pncalls := some 0 })
          else b2) id Queue.active
        else some b2) = some b3
      ∧ CountOK b3 ∧ b3.store.map Prod.fst = b2.store.map Prod.fst := by
    by_cases hact : ev2.ev_flags.active = true ∧ ev2.ev_res &&& EV_TIMEOUT ≠ 0
    · simp only [if_pos hact]
      set b2a := if ev2.ev_ncalls ≠ 0 ∧ ev2.ev_pncalls ≠ none then
          updateEv b2 id (fun e => { e with ev_pncalls := some 0 }) else b2 with hb2a
      have h2a : CountOK b2a ∧ b2a.store.map Prod.fst = b2.store.map Prod.fst := by
        rw [hb2a]
        by_cases hpn : ev2.ev_ncalls ≠ 0 ∧ ev2.ev_pncalls ≠ none
        · simp only [if_pos hpn]
          exact updateEv_inv b2 id _ (fun e => rfl) hinv2
        · rw [if_neg hpn]
          exact ⟨hinv2, rfl⟩
      have hk2a : (b2a.store.map Prod.fst).Nodup := by rw [h2a.2]; exact hk2
      rcases hrem : event_queue_remove b2a id Queue.active with - | b3
      · rw [if_pos hact, hrem] at hr; cases hr
      · rcases event_queue_remove_inv b2a id _ b3 hk2a h2a.1 hrem with ⟨hi3, hk3⟩
        exact ⟨b3, rfl, hi3, by rw [hk3, h2a.2]⟩
    · simp only [if_neg hact]
      exact ⟨b2, rfl, hinv2, rfl⟩
  rcases step3 with ⟨b3, hb3, hinv3, hkeys3⟩
  rw [hb3] at hr
  simp only [] at hr
  have hk3 : (b3.store.map Prod.fst).Nodup := by rw [hkeys3, hkeys2]; exact hk
  have h4 := updateEv_inv b3 id (fun e => { e with ev_timeout := now + t })
    (fun e => rfl) hinv3
  have hk4 : ((updateEv b3 id (fun e => { e with ev_timeout := now + t })).store.map
      Prod.fst).Nodup := by rw [h4.2]; exact hk3
  rcases event_queue_insert_inv _ id Queue.timeout b' hk4 h4.1 hr with ⟨hi5, hk5⟩
  exact ⟨hi5, by rw [hk5, h4.2, hkeys3, hkeys2]⟩

theorem event_add_inv (env : AddEnv) (b : Base) (id : Nat) (tv : Option Int)
    (r : Int) (b' : Base)
    (hk : (b.store.map Prod.fst).Nodup) (hinv : CountOK b)
    (hr : event_add env b id tv = some (r, b')) :
    CountOK b' ∧ b'.store.map Prod.fst = b.store.map Prod.fst := by
  unfold event_add at hr
  rcases hl : lookupEv b id with - | ev
  · rw [hl] at hr; cases hr
  rw [hl] at hr
  simp only [] at hr
  by_cases hmem : tv.isSome = true ∧ ev.ev_flags.timeout = false ∧ env.reserveOk = false
  · rw [if_pos hmem] at hr
    rw [Option.some.injEq, Prod.mk.injEq] at hr
    rcases hr with ⟨-, rfl⟩
    exact ⟨hinv, rfl⟩
  rw [if_neg hmem] at hr
  have step1 : ∃ res base1,
      (if hasRWS ev.ev_events ∧ ev.ev_flags.inserted = false
          ∧ ev.ev_flags.active = false then
        if env.backendOk = true then
          (event_queue_insert b id Queue.inserted).map (fun b0 => ((0 : Int), b0))
        else some (-1, b)
      else some ((0 : Int), b)) = some (res, base1)
      ∧ CountOK base1 ∧ base1.store.map Prod.fst = b.store.map Prod.fst := by
    by_cases hneed : hasRWS ev.ev_events ∧ ev.ev_flags.inserted = false
        ∧ ev.ev_flags.active = false
    · rw [if_pos hneed]
      cases hbk : env.backendOk with
      | true =>
        rw [if_pos rfl,
          event_queue_insert_eq b id ev Queue.inserted hl hneed.2.1]
        refine ⟨0, insBase b id ev Queue.inserted, rfl, ?_,
          insBase_keys b id ev Queue.inserted⟩
        unfold CountOK at hinv ⊢
        rw [insBase_event_count,
          insBase_memberCount b id ev Queue.inserted hk hl hneed.2.1]
        omega
      | false =>
        rw [if_neg (by simp)]
        exact ⟨-1, b, rfl, hinv, rfl⟩
    · rw [if_neg hneed]
      exact ⟨0, b, rfl, hinv, rfl⟩
  rcases step1 with ⟨res, base1, hs1, hinv1, hkeys1⟩
  rw [hs1] at hr
  simp only [] at hr
  have hk1 : (base1.store.map Prod.fst).Nodup := by rw [hkeys1]; exact hk
  cases tv with
  | none =>
    simp only [] at hr
    rw [Option.some.injEq, Prod.mk.injEq] at hr
    rcases hr with ⟨-, rfl⟩
    exact ⟨hinv1, hkeys1⟩
  | some t =>
    simp only [] at hr
    by_cases hres : res = -1
    · rw [if_pos hres] at hr
      rw [Option.some.injEq, Prod.mk.injEq] at hr
      rcases hr with ⟨-, rfl⟩
      exact ⟨hinv1, hkeys1⟩
    · rw [if_neg hres] at hr
      rcases hto : event_add_timeout env.now t base1 id with - | bT
      · rw [hto] at hr; cases hr
      · rw [hto] at hr
        rw [Option.map_some', Option.some.injEq, Prod.mk.injEq] at hr
        rcases hr with ⟨-, rfl⟩
        rcases event_add_timeout_inv env.now t base1 id bT hk1 hinv1 hto with ⟨hiT, hkT⟩
        exact ⟨hiT, by rw [hkT, hkeys1]⟩

theorem event_del_inv (delOk : Bool) (b : Base) (id : Nat) (r : Int) (b' : Base)
    (hk : (b.store.map Prod.fst).Nodup) (hinv : CountOK b)
    (hr : event_del delOk b id = some (r, b')) :
    CountOK b' ∧ b'.store.map Prod.fst = b.store.map Prod.fst := by
  unfold event_del at hr
  rcases hl : lookupEv b id with - | ev
  · rw [hl] at hr; cases hr
  rw [hl] at hr
  simp only [] at hr
  by_cases hb : ev.hasBase = false
  · rw [if_pos hb] at hr
    rw [Option.some.injEq, Prod.mk.injEq] at hr
    rcases hr with ⟨-, rfl⟩
    exact ⟨hinv, rfl⟩
  rw [if_neg hb] at hr
  have step1 : ∃ b1, (if ev.ev_ncalls ≠ 0 ∧ ev.ev_pncalls ≠ none then
        updateEv b id (fun e => { e with ev_pncalls := some 0 }) else b) = b1
      ∧ CountOK b1 ∧ b1.store.map Prod.fst = b.store.map Prod.fst := by
    by_cases hpn : ev.ev_ncalls ≠ 0 ∧ ev.ev_pncalls ≠ none
    · rw [if_pos hpn]
      exact ⟨_, rfl, updateEv_inv b id _ (fun e => rfl) hinv⟩
    · rw [if_neg hpn]
      exact ⟨b, rfl, hinv, rfl⟩
  rcases step1 with ⟨b1, hs1, hinv1, hkeys1⟩
  rw [hs1] at hr
  have hk1 : (b1.store.map Prod.fst).Nodup := by rw [hkeys1]; exact hk
  rcases hl1 : lookupEv b1 id with - | ev1
  · rw [hl1] at hr; cases hr
  rw [hl1] at hr
  simp only [] at hr
  have step2 : ∃ b2, (if ev1.ev_flags.timeout = true then
        event_queue_remove b1 id Queue.timeout else some b1) = some b2
      ∧ CountOK b2 ∧ b2.store.map Prod.fst = b1.store.map Prod.fst := by
    cases ht : ev1.ev_flags.timeout with
    | false => exact ⟨b1, by simp, hinv1, rfl⟩
    | true =>
      rw [if_pos rfl]
      rcases hrem : event_queue_remove b1 id Queue.timeout with - | b2
      · rw [ht, hrem] at hr; cases hr
      · exact ⟨b2, rfl, event_queue_remove_inv b1 id _ b2 hk1 hinv1 hrem⟩
  rcases step2 with ⟨b2, hs2, hinv2, hkeys2⟩
  rw [hs2] at hr
  simp only [] at hr
  have hk2 : (b2.store.map Prod.fst).Nodup := by rw [hkeys2]; exact hk1
  rcases hl2 : lookupEv b2 id with - | ev2
  · rw [hl2] at hr; cases hr
  rw [hl2] at hr
  simp only [] at hr
  have step3 : ∃ b3, (if ev2.ev_flags.active = true then
        event_queue_remove b2 id Queue.active else some b2) = some b3
      ∧ CountOK b3 ∧ b3.store.map Prod.fst = b2.store.map Prod.fst := by
    cases ha : ev2.ev_flags.active with
    | false => exact ⟨b2, by simp, hinv2, rfl⟩
    | true =>
      rw [if_pos rfl]
      rcases hrem : event_queue_remove b2 id Queue.active with - | b3
      · rw [ha, hrem] at hr; cases hr
      · exact ⟨b3, rfl, event_queue_remove_inv b2 id _ b3 hk2 hinv2 hrem⟩
  rcases step3 with ⟨b3, hs3, hinv3, hkeys3⟩
  rw [hs3] at hr
  simp only [] at hr
  have hk3 : (b3.store.map Prod.fst).Nodup := by rw [hkeys3, hkeys2]; exact hk1
  rcases hl3 : lookupEv b3 id with - | ev3
  · rw [hl3] at hr; cases hr
  rw [hl3] at hr
  simp only [] at hr
  cases hi : ev3.ev_flags.inserted with
  | false =>
    rw [hi] at hr
    simp only [Bool.false_eq_true, if_false] at hr
    rw [Option.some.injEq, Prod.mk.injEq] at hr
    rcases hr with ⟨-, rfl⟩
    exact ⟨hinv3, by rw [hkeys3, hkeys2, hkeys1]⟩
  | true =>
    rw [hi] at hr
    simp only [if_true] at hr
    rcases hrem : event_queue_remove b3 id Queue.inserted with - | b4
    · rw [hrem] at hr; cases hr
    · rw [hrem] at hr
      rw [Option.map_some', Option.some.injEq, Prod.mk.injEq] at hr
      rcases hr with ⟨-, rfl⟩
      rcases event_queue_remove_inv b3 id _ b4 hk3 hinv3 hrem with ⟨hi4, hk4⟩
      exact ⟨hi4, by rw [hk4, hkeys3, hkeys2, hkeys1]⟩

theorem runOp_inv (b : Base) (op : LoopOp) (b' : Base)
    (hk : (b.store.map Prod.fst).Nodup) (hinv : CountOK b)
    (hr : runOp b op = some b') :
    CountOK b' ∧ b'.store.map Prod.fst = b.store.map Prod.fst := by
  cases op with
  | add env id tv =>
    simp only [runOp] at hr
    rcases ha : event_add env b id tv with - | p
    · rw [ha] at hr; cases hr
    · rw [ha] at hr
      rw [Option.map_some', Option.some.injEq] at hr
      rcases p with ⟨r, b2⟩
      rcases hr with rfl
      exact event_add_inv env b id tv r b2 hk hinv ha
  | del delOk id =>
    simp only [runOp] at hr
    rcases ha : event_del delOk b id with - | p
    · rw [ha] at hr; cases hr
    · rw [ha] at hr
      rw [Option.map_some', Option.some.injEq] at hr
      rcases p with ⟨r, b2⟩
      rcases hr with rfl
      exact event_del_inv delOk b id r b2 hk hinv ha

theorem runOps_inv (ops : List LoopOp) : ∀ b b' : Base,
    (b.store.map Prod.fst).Nodup → CountOK b → runOps ops b = some b' →
    CountOK b' ∧ b'.store.map Prod.fst = b.store.map Prod.fst := by
  induction ops with
  | nil =>
    intro b b' _ hinv hr
    rw [runOps, Option.some.injEq] at hr
    rw [← hr]
    exact ⟨hinv, rfl⟩
  | cons op ops ih =>
    intro b b' hk hinv hr
    rw [runOps] at hr
    rcases ho : runOp b op with - | b1
    · rw [ho] at hr; cases hr
    · rw [ho] at hr
      rcases runOp_inv b op b1 hk hinv ho with ⟨hinv1, hkeys1⟩
      have hk1 : (b1.store.map Prod.fst).Nodup := by rw [hkeys1]; exact hk
      rcases ih b1 b' hk1 hinv1 hr with ⟨hinv2, hkeys2⟩
      exact ⟨hinv2, by rw [hkeys2, hkeys1]⟩

/-- C1, as stated, fails on the code: adding the READ-interest event 0
with a timeout makes event_count = 2 (one for INSERTED, one for
TIMEOUT), while exactly 1 non-internal event has INSERTED or TIMEOUT
set; the code counts queue memberships, not events. -/
theorem claim_C1_counterexample :
    (event_add sampleEnv sampleBase 0 (some 50)).map
        (fun r => (r.2.event_count, claimedEventCount r.2)) = some (2, 1)
      ∧ (2 : Int) ≠ 1 := by
  constructor
  · decide
  · decide

/-- C1 (amended): after any sequence of event_add / event_del
operations, event_count equals the total number of queue memberships of
non-internal events — each non-internal event contributes one for each
of its INSERTED, ACTIVE and TIMEOUT flags (so an event in both the
registered list and the timer heap counts twice, not once). -/
theorem claim_C1 (b b' : Base) (ops : List LoopOp)
    (hk : (b.store.map Prod.fst).Nodup)
    (hinv : b.event_count = memberCount b)
    (hr : runOps ops b = some b') :
    b'.event_count = memberCount b' :=
  (runOps_inv ops b b' hk hinv hr).1

/-- Witness for C1 at a concrete input. -/
theorem claim_C1_witness :
    ((sampleBase.store.map Prod.fst).Nodup
      ∧ sampleBase.event_count = memberCount sampleBase
      ∧ runOps c1Ops sampleBase = some c1Final)
    ∧ c1Final.event_count = memberCount c1Final :=
  ⟨⟨by decide, by decide, by decide⟩,
    claim_C1 sampleBase c1Final c1Ops (by decide) (by decide) (by decide)⟩

/-- C2: when event_add fails — the timer-heap reservation fails for a
fresh timeout, or the backend add fails for an event with
READ/WRITE/SIGNAL interest that is neither INSERTED nor ACTIVE — it
returns -1 with the base (flags, registry, timer heap, priority queues)
completely unchanged. -/
theorem claim_C2 (env : AddEnv) (b : Base) (id : Nat) (tv : Option Int) (ev : Event)
    (hl : lookupEv b id = some ev)
    (hfail : (tv.isSome = true ∧ ev.ev_flags.timeout = false ∧ env.reserveOk = false)
      ∨ (hasRWS ev.ev_events ∧ ev.ev_flags.inserted = false ∧ ev.ev_flags.active = false
          ∧ env.backendOk = false)) :
    event_add env b id tv = some (-1, b) := by
  unfold event_add
  rw [hl]
  simp only []
  rcases hfail with h1 | h2
  · rw [if_pos h1]
  · by_cases hmem : tv.isSome = true ∧ ev.ev_flags.timeout = false ∧ env.reserveOk = false
    · rw [if_pos hmem]
    · rw [if_neg hmem, if_pos ⟨h2.1, h2.2.1, h2.2.2.1⟩, if_neg (by simp [h2.2.2.2])]
      simp only []
      cases tv with
      | none => rfl
      | some t => simp

/-- Witness for C2 at a concrete input (reservation failure). -/
theorem claim_C2_witness :
    (lookupEv sampleBase 0 = some sampleEv
      ∧ (some (50 : Int)).isSome = true ∧ sampleEv.ev_flags.timeout = false
      ∧ c2Env.reserveOk = false)
    ∧ event_add c2Env sampleBase 0 (some 50) = some (-1, sampleBase) :=
  ⟨⟨by decide, by decide, by decide, by decide⟩,
    claim_C2 c2Env sampleBase 0 (some 50) sampleEv (by decide)
      (Or.inl ⟨by decide, by decide, by decide⟩)⟩

/-- C10: event_del on an event never bound to a loop (NULL base) returns
-1 and changes nothing. -/
theorem claim_C10 (delOk : Bool) (b : Base) (id : Nat) (ev : Event)
    (hl : lookupEv b id = some ev) (hb : ev.hasBase = false) :
    event_del delOk b id = some (-1, b) := by
  unfold event_del
  rw [hl]
  simp only []
  rw [if_pos hb]

/-- Witness for C10 at a concrete input. -/
theorem claim_C10_witness :
    (lookupEv unboundBase 0 = some unboundEv ∧ unboundEv.hasBase = false)
    ∧ event_del true unboundBase 0 = some (-1, unboundBase) :=
  ⟨⟨by decide, by decide⟩, claim_C10 true unboundBase 0 unboundEv (by decide) (by decide)⟩

/-- C8, as stated, fails on the code: the unbound event 0 has none of
INSERTED/ACTIVE/TIMEOUT set, yet event_del returns -1 (ERROR), not OK,
because its base pointer is NULL. -/
theorem claim_C8_counterexample :
    (unboundEv.ev_flags.inserted = false ∧ unboundEv.ev_flags.active = false
      ∧ unboundEv.ev_flags.timeout = false)
    ∧ event_del true unboundBase 0 = some (-1, unboundBase)
    ∧ (-1 : Int) ≠ 0 := by
  refine ⟨⟨by decide, by decide, by decide⟩, by decide, by decide⟩

/-- C8 (amended): for every event bound to a loop with none of INSERTED,
TIMEOUT, ACTIVE set, event_del returns 0 and leaves the flags, the
registered list, the timer heap, the priority queues and both counters
unchanged; the only possible effect is zeroing a pending callback
counter through the `pncalls` abort channel, and when no such channel is
bound the call is a complete no-op. -/
theorem claim_C8 (delOk : Bool) (b : Base) (id : Nat) (ev : Event)
    (hl : lookupEv b id = some ev) (hb : ev.hasBase = true)
    (h1 : ev.ev_flags.inserted = false) (h2 : ev.ev_flags.active = false)
    (h3 : ev.ev_flags.timeout = false) :
    event_del delOk b id = some (0,
      if ev.ev_ncalls ≠ 0 ∧ ev.ev_pncalls ≠ none then
        updateEv b id (fun e => { e with ev_pncalls := some 0 }) else b)
    ∧ (∀ f : Event → Event, (updateEv b id f).eventqueue = b.eventqueue
        ∧ (updateEv b id f).timeheap = b.timeheap
        ∧ (updateEv b id f).activequeues = b.activequeues
        ∧ (updateEv b id f).event_count = b.event_count
        ∧ (updateEv b id f).event_count_active = b.event_count_active)
    ∧ lookupEv (if ev.ev_ncalls ≠ 0 ∧ ev.ev_pncalls ≠ none then
        updateEv b id (fun e => { e with ev_pncalls := some 0 }) else b) id
      = some { ev with ev_pncalls :=
          if ev.ev_ncalls ≠ 0 ∧ ev.ev_pncalls ≠ none then some 0 else ev.ev_pncalls }
    ∧ ((ev.ev_ncalls = 0 ∨ ev.ev_pncalls = none) → event_del delOk b id = some (0, b)) := by
  have hmain : event_del delOk b id = some (0,
      if ev.ev_ncalls ≠ 0 ∧ ev.ev_pncalls ≠ none then
        updateEv b id (fun e => { e with ev_pncalls := some 0 }) else b) := by
    unfold event_del
    rw [hl]
    simp only []
    rw [if_neg (by simp [hb])]
    by_cases hpn : ev.ev_ncalls ≠ 0 ∧ ev.ev_pncalls ≠ none
    · rw [if_pos hpn]
      rw [lookupEv_updateEv_self, hl, Option.map_some']
      simp only []
      rw [if_neg (by simp [h3])]
      simp only []
      rw [lookupEv_updateEv_self, hl, Option.map_some']
      simp only []
      rw [if_neg (by simp [h2])]
      simp only []
      rw [lookupEv_updateEv_self, hl, Option.map_some']
      simp only []
      rw [if_neg (by simp [h1])]
    · rw [if_neg hpn]
      rw [hl]
      simp only []
      rw [if_neg (by simp [h3])]
      simp only []
      rw [hl]
      simp only []
      rw [if_neg (by simp [h2])]
      simp only []
      rw [hl]
      simp only []
      rw [if_neg (by simp [h1])]
  refine ⟨hmain, fun f => ⟨rfl, rfl, rfl, rfl, rfl⟩, ?_, ?_⟩
  · by_cases hpn : ev.ev_ncalls ≠ 0 ∧ ev.ev_pncalls ≠ none
    · rw [if_pos hpn, if_pos hpn, lookupEv_updateEv_self, hl]
      rfl
    · rw [if_neg hpn, if_neg hpn, hl]
    
  · intro hno
    have hpn : ¬(ev.ev_ncalls ≠ 0 ∧ ev.ev_pncalls ≠ none) := by
      rcases hno with h | h
      · intro hc; exact hc.1 h
      · intro hc; exact hc.2 h
    rw [hmain, if_neg hpn]

/-- Witness for C8 at a concrete input (bound, flag-free event: complete
no-op). -/
theorem claim_C8_witness :
    (lookupEv sampleBase 0 = some sampleEv ∧ sampleEv.hasBase = true
      ∧ sampleEv.ev_flags.inserted = false ∧ sampleEv.ev_flags.active = false
      ∧ sampleEv.ev_flags.timeout = false)
    ∧ event_del true sampleBase 0 = some (0, sampleBase) :=
  ⟨⟨by decide, by decide, by decide, by decide, by decide⟩,
    (claim_C8 true sampleBase 0 sampleEv (by decide) (by decide) (by decide)
      (by decide) (by decide)).2.2.2 (Or.inl (by decide))⟩

/-- C9: event_active on an event already ACTIVE only ORs the trigger
mask into ev_res; the ncalls argument is discarded, and ev_ncalls,
ev_pncalls and every queue (hence the event's position in its priority
queue) are unchanged. -/
theorem claim_C9 (b : Base) (id : Nat) (ev : Event) (res ncalls ncalls' : Nat)
    (hl : lookupEv b id = some ev) (ha : ev.ev_flags.active = true) :
    event_active b id res ncalls
      = some (updateEv b id (fun e => { e with ev_res := e.ev_res ||| res }))
    ∧ lookupEv (updateEv b id (fun e => { e with ev_res := e.ev_res ||| res })) id
      = some { ev with ev_res := ev.ev_res ||| res }
    ∧ (updateEv b id (fun e => { e with ev_res := e.ev_res ||| res })).activequeues
      = b.activequeues
    ∧ (updateEv b id (fun e => { e with ev_res := e.ev_res ||| res })).eventqueue
      = b.eventqueue
    ∧ (updateEv b id (fun e => { e with ev_res := e.ev_res ||| res })).timeheap
      = b.timeheap
    ∧ event_active b id res ncalls' = event_active b id res ncalls := by
  have hmain : ∀ n : Nat, event_active b id res n
      = some (updateEv b id (fun e => { e with ev_res := e.ev_res ||| res })) := by
    intro n
    unfold event_active
    rw [hl]
    simp only []
    rw [if_pos ha]
  refine ⟨hmain ncalls, ?_, rfl, rfl, rfl, ?_⟩
  · rw [lookupEv_updateEv_self, hl]
    rfl
  · rw [hmain ncalls', hmain ncalls]

/-- Witness for C9 at a concrete input. -/
theorem claim_C9_witness :
    (lookupEv c9Base 0 = some c9Ev ∧ c9Ev.ev_flags.active = true)
    ∧ event_active c9Base 0 2 7
      = some (updateEv c9Base 0 (fun e => { e with ev_res := e.ev_res ||| 2 })) :=
  ⟨⟨by decide, by decide⟩,
    (claim_C9 c9Base 0 c9Ev 2 7 9 (by decide) (by decide)).1⟩

/-! ## Timer correction lemmas -/

theorem foldl_updateEv_shape (f : Event → Event) (l : List Nat) : ∀ b : Base,
    (l.foldl (fun b id => updateEv b id f) b).timeheap = b.timeheap
    ∧ (l.foldl (fun b id => updateEv b id f) b).eventqueue = b.eventqueue
    ∧ (l.foldl (fun b id => updateEv b id f) b).activequeues = b.activequeues
    ∧ (l.foldl (fun b id => updateEv b id f) b).store.map Prod.fst
      = b.store.map Prod.fst := by
  induction l with
  | nil => intro b; exact ⟨rfl, rfl, rfl, rfl⟩
  | cons x xs ih =>
    intro b
    simp only [List.foldl_cons]
    rcases ih (updateEv b x f) with ⟨h1, h2, h3, h4⟩
    exact ⟨h1, h2, h3, by rw [h4, updateEv_keys]⟩

theorem foldl_updateEv_lookup_not_mem (f : Event → Event) (l : List Nat) :
    ∀ (b : Base) (k : Nat), k ∉ l →
    lookupEv (l.foldl (fun b id => updateEv b id f) b) k = lookupEv b k := by
  induction l with
  | nil => intro b k _; rfl
  | cons x xs ih =>
    intro b k hk
    simp only [List.foldl_cons]
    rw [ih (updateEv b x f) k (fun h => hk (List.mem_cons_of_mem _ h))]
    exact lookupEv_updateEv_ne b x f k (fun h => hk (h ▸ List.mem_cons_self _ _))

theorem foldl_updateEv_lookup_mem (f : Event → Event) (l : List Nat) :
    ∀ (b : Base) (k : Nat), l.Nodup → k ∈ l →
    lookupEv (l.foldl (fun b id => updateEv b id f) b) k
      = (lookupEv b k).map f := by
  induction l with
  | nil => intro b k _ hk; cases hk
  | cons x xs ih =>
    intro b k hnd hk
    simp only [List.foldl_cons]
    rw [List.nodup_cons] at hnd
    rcases List.mem_cons.mp hk with rfl | hmem
    · rw [foldl_updateEv_lookup_not_mem f xs (updateEv b k f) k hnd.1]
      exact lookupEv_updateEv_self b k f
    · have hne : k ≠ x := fun he => hnd.1 (he ▸ hmem)
      rw [ih (updateEv b x f) k hnd.2 hmem, lookupEv_updateEv_ne b x f k hne]

theorem heapDl_eq_of (b b' : Base) (hs : b'.store = b.store)
    (ht : b'.timeheap = b.timeheap) (i : Nat) : heapDl b' i = heapDl b i := by
  unfold heapDl lookupEv
  rw [hs, ht]

theorem correctHeap_timeheap (b : Base) (off : Int) :
    (correctHeap b off).timeheap = b.timeheap :=
  (foldl_updateEv_shape _ b.timeheap b).1

theorem correctHeap_lookup_mem (b : Base) (off : Int) (hnd : b.timeheap.Nodup)
    (id : Nat) (hm : id ∈ b.timeheap) :
    lookupEv (correctHeap b off) id
      = (lookupEv b id).map (fun e => { e with ev_timeout := e.ev_timeout - off }) :=
  foldl_updateEv_lookup_mem _ b.timeheap b id hnd hm

theorem correctHeap_lookup_not_mem (b : Base) (off : Int)
    (k : Nat) (hm : k ∉ b.timeheap) :
    lookupEv (correctHeap b off) k = lookupEv b k :=
  foldl_updateEv_lookup_not_mem _ b.timeheap b k hm

theorem heapDl_correctHeap (b : Base) (off : Int) (hnd : b.timeheap.Nodup)
    (hks : ∀ id ∈ b.timeheap, id ∈ b.store.map Prod.fst)
    (i : Nat) (hi : i < b.timeheap.length) :
    heapDl (correctHeap b off) i = heapDl b i - off := by
  have hth := correctHeap_timeheap b off
  rcases hg : b.timeheap.get? i with - | id
  · rw [List.get?_eq_none] at hg
    omega
  · have hidmem : id ∈ b.timeheap := List.get?_mem hg
    have hsome := lookupEv_isSome_of_mem_keys b id (hks id hidmem)
    rcases hl : lookupEv b id with - | e
    · rw [hl] at hsome; cases hsome
    · unfold heapDl
      rw [hth, hg]
      simp only []
      rw [correctHeap_lookup_mem b off hnd id hidmem, hl, Option.map_some']

/-- C6: in wall-clock mode, when timeout_correct observes now strictly
before the recorded event_tv it subtracts off = event_tv - now from the
deadline of every event in the timer heap (events outside the heap are
untouched, the heap array itself is unchanged), preserving the relative
order of all deadlines and hence the binary min-heap ordering without
re-heapifying, and finally records event_tv = now; with a monotonic
clock or when now ≥ event_tv, no event is modified at all. -/
theorem claim_C6 (useMonotonic : Bool) (now : Int) (b : Base)
    (hnd : b.timeheap.Nodup)
    (hks : ∀ id ∈ b.timeheap, id ∈ b.store.map Prod.fst) :
    ((useMonotonic = true ∨ b.event_tv ≤ now) →
      ∀ k, lookupEv (timeout_correct useMonotonic now b) k = lookupEv b k)
    ∧ (useMonotonic = false → now < b.event_tv →
      (timeout_correct false now b).timeheap = b.timeheap
      ∧ (∀ id e, id ∈ b.timeheap → lookupEv b id = some e →
          lookupEv (timeout_correct false now b) id
            = some { e with ev_timeout := e.ev_timeout - (b.event_tv - now) })
      ∧ (∀ k, k ∉ b.timeheap → lookupEv (timeout_correct false now b) k = lookupEv b k)
      ∧ (∀ i j, i < b.timeheap.length → j < b.timeheap.length →
          (heapDl (timeout_correct false now b) i ≤ heapDl (timeout_correct false now b) j
            ↔ heapDl b i ≤ heapDl b j))
      ∧ (MinHeapOK b → MinHeapOK (timeout_correct false now b))
      ∧ (timeout_correct false now b).event_tv = now) := by
  constructor
  · intro hmode k
    rcases hmode with hm | hle
    · unfold timeout_correct
      rw [if_pos hm]
    · unfold timeout_correct
      by_cases hm : useMonotonic = true
      · rw [if_pos hm]
      · rw [if_neg hm, if_pos hle]
        exact lookupEv_eq_of_store b _ rfl k
  · intro _ hlt
    have hstore : (timeout_correct false now b).store
        = (correctHeap b (b.event_tv - now)).store := by
      unfold timeout_correct
      rw [if_neg (by simp), if_neg (by omega)]
    have hth2 : (timeout_correct false now b).timeheap
        = (correctHeap b (b.event_tv - now)).timeheap := by
      unfold timeout_correct
      rw [if_neg (by simp), if_neg (by omega)]
    have htv : (timeout_correct false now b).event_tv = now := by
      unfold timeout_correct
      rw [if_neg (by simp), if_neg (by omega)]
    have hlk : ∀ k, lookupEv (timeout_correct false now b) k
        = lookupEv (correctHeap b (b.event_tv - now)) k :=
      fun k => lookupEv_eq_of_store (correctHeap b (b.event_tv - now))
        (timeout_correct false now b) hstore k
    have hth : (timeout_correct false now b).timeheap = b.timeheap := by
      rw [hth2, correctHeap_timeheap]
    have hdl : ∀ m, m < b.timeheap.length →
        heapDl (timeout_correct false now b) m = heapDl b m - (b.event_tv - now) := by
      intro m hm
      rw [heapDl_eq_of (correctHeap b (b.event_tv - now))
        (timeout_correct false now b) hstore hth2 m]
      exact heapDl_correctHeap b _ hnd hks m hm
    refine ⟨hth, ?_, ?_, ?_, ?_, htv⟩
    · intro id e hm hl
      rw [hlk id, correctHeap_lookup_mem b _ hnd id hm, hl, Option.map_some']
    · intro k hk
      rw [hlk k]
      exact correctHeap_lookup_not_mem b _ k hk
    · intro i j hi hj
      rw [hdl i hi, hdl j hj]
      omega
    · intro hmh i j hij hj
      rw [hth] at hj
      have hi : i < b.timeheap.length := by omega
      rw [hdl i hi, hdl j hj]
      have := hmh i j hij hj
      omega

/-- Witness for C6 at a concrete input: clock moved back from 150 to
120; the deadline 150 becomes 120. -/
theorem claim_C6_witness :
    (timerBase.timeheap.Nodup
      ∧ (∀ id ∈ timerBase.timeheap, id ∈ timerBase.store.map Prod.fst)
      ∧ (120 : Int) < timerBase.event_tv
      ∧ 0 ∈ timerBase.timeheap ∧ lookupEv timerBase 0 = some timerEv)
    ∧ lookupEv (timeout_correct false 120 timerBase) 0
      = some { timerEv with
          ev_timeout := timerEv.ev_timeout - (timerBase.event_tv - 120) } :=
  ⟨⟨by decide, by decide, by decide, by decide, by decide⟩,
    ((claim_C6 false 120 timerBase (by decide) (by decide)).2 rfl
      (by decide)).2.1 0 timerEv (by decide) (by decide)⟩

/-! ## Re-arming lemmas -/

theorem lookupEv_insBase_self (b : Base) (id : Nat) (ev : Event) (q : Queue)
    (hl : lookupEv b id = some ev) :
    lookupEv (insBase b id ev q) id
      = some { ev with ev_flags := flagsSet ev.ev_flags q } := by
  rw [lookupEv_eq_of_store
      (updateEv b id (fun e => { e with ev_flags := flagsSet e.ev_flags q }))
      (insBase b id ev q) (insBase_store b id ev q) id,
    lookupEv_updateEv_self, hl, Option.map_some']

theorem lookupEv_remBase_self (b : Base) (id : Nat) (ev : Event) (q : Queue)
    (hl : lookupEv b id = some ev) :
    lookupEv (remBase b id ev q) id
      = some { ev with ev_flags := flagsClear ev.ev_flags q } := by
  rw [lookupEv_eq_of_store
      (updateEv b id (fun e => { e with ev_flags := flagsClear e.ev_flags q }))
      (remBase b id ev q) (remBase_store b id ev q) id,
    lookupEv_updateEv_self, hl, Option.map_some']

theorem insBase_timeheap_inserted (b : Base) (id : Nat) (ev : Event) :
    (insBase b id ev Queue.inserted).timeheap = b.timeheap := by
  by_cases hi : ev.ev_flags.internal = false <;> simp [insBase, hi, updateEv]

theorem insBase_timeheap_timeout (b : Base) (id : Nat) (ev : Event) :
    (insBase b id ev Queue.timeout).timeheap = min_heap_push b.timeheap id := by
  by_cases hi : ev.ev_flags.internal = false <;> simp [insBase, hi, updateEv]

theorem remBase_timeheap_timeout (b : Base) (id : Nat) (ev : Event) :
    (remBase b id ev Queue.timeout).timeheap = min_heap_erase b.timeheap id := by
  by_cases hi : ev.ev_flags.internal = false <;> simp [remBase, hi, updateEv]

theorem remBase_timeheap_active (b : Base) (id : Nat) (ev : Event) :
    (remBase b id ev Queue.active).timeheap = b.timeheap := by
  by_cases hi : ev.ev_flags.internal = false <;> simp [remBase, hi, updateEv]

theorem event_add_timeout_spec (now t : Int) (b1 : Base) (id : Nat) (ev1 : Event)
    (hl1 : lookupEv b1 id = some ev1) (ht1 : ev1.ev_flags.timeout = true) :
    ∃ b2, event_add_timeout now t b1 id = some b2
      ∧ b2.timeheap = min_heap_push (min_heap_erase b1.timeheap id) id
      ∧ (lookupEv b2 id).map (fun e => e.ev_timeout) = some (now + t)
      ∧ (lookupEv b2 id).map (fun e => e.ev_flags.timeout) = some true := by
  unfold event_add_timeout
  rw [hl1]
  simp only []
  rw [if_pos ht1,
    event_queue_remove_eq b1 id ev1 Queue.timeout hl1 ht1]
  simp only []
  rw [lookupEv_remBase_self b1 id ev1 Queue.timeout hl1]
  simp only []
  set ev2 : Event := { ev1 with ev_flags := flagsClear ev1.ev_flags Queue.timeout }
    with hev2
  set B2 : Base := remBase b1 id ev1 Queue.timeout with hB2
  have hth2 : B2.timeheap = min_heap_erase b1.timeheap id :=
    remBase_timeheap_timeout b1 id ev1
  have hl2 : lookupEv B2 id = some ev2 := lookupEv_remBase_self b1 id ev1 Queue.timeout hl1
  have main : ∀ (b3 : Base) (ev3 : Event), lookupEv b3 id = some ev3 →
      ev3.ev_flags.timeout = false →
      b3.timeheap = min_heap_erase b1.timeheap id →
      ∃ b2, (event_queue_insert
          (updateEv b3 id (fun e => { e with ev_timeout := now + t })) id Queue.timeout) = some b2
        ∧ b2.timeheap = min_heap_push (min_heap_erase b1.timeheap id) id
        ∧ (lookupEv b2 id).map (fun e => e.ev_timeout) = some (now + t)
        ∧ (lookupEv b2 id).map (fun e => e.ev_flags.timeout) = some true := by
    intro b3 ev3 hl3 hto3 hth3
    set f : Event → Event := fun e => { e with ev_timeout := now + t } with hf
    have hl4 : lookupEv (updateEv b3 id f) id = some (f ev3) := by
      rw [lookupEv_updateEv_self, hl3, Option.map_some']
    have hflag4 : flagsHas (f ev3).ev_flags Queue.timeout = false := by
      simpa [hf, flagsHas] using hto3
    rw [event_queue_insert_eq (updateEv b3 id f) id (f ev3) Queue.timeout hl4 hflag4]
    refine ⟨_, rfl, ?_, ?_, ?_⟩
    · rw [insBase_timeheap_timeout, updateEv_timeheap, hth3]
    · rw [lookupEv_insBase_self (updateEv b3 id f) id (f ev3) Queue.timeout hl4,
        Option.map_some']
    · rw [lookupEv_insBase_self (updateEv b3 id f) id (f ev3) Queue.timeout hl4,
        Option.map_some']
      simp [flagsSet]
  have hto2 : ev2.ev_flags.timeout = false := by
    simp [hev2, flagsClear]
  by_cases hact : ev2.ev_flags.active = true ∧ ev2.ev_res &&& EV_TIMEOUT ≠ 0
  · rw [if_pos hact]
    by_cases hpn : ev2.ev_ncalls ≠ 0 ∧ ev2.ev_pncalls ≠ none
    · rw [if_pos hpn]
      set g : Event → Event := fun e => { e with ev_pncalls := some 0 } with hg
      have hl2a : lookupEv (updateEv B2 id g) id = some (g ev2) := by
        rw [lookupEv_updateEv_self, hl2, Option.map_some']
      have hfa : flagsHas (g ev2).ev_flags Queue.active = true := hact.1
      rw [event_queue_remove_eq (updateEv B2 id g) id (g ev2) Queue.active hl2a hfa]
      simp only []
      have hl3 : lookupEv (remBase (updateEv B2 id g) id (g ev2) Queue.active) id
          = some { (g ev2) with ev_flags := flagsClear (g ev2).ev_flags Queue.active } :=
        lookupEv_remBase_self (updateEv B2 id g) id (g ev2) Queue.active hl2a
      have hto3 : ({ (g ev2) with
          ev_flags := flagsClear (g ev2).ev_flags Queue.active } : Event).ev_flags.timeout
          = false := by
        simp [hg, flagsClear, hto2]
      have hheap : (remBase (updateEv B2 id g) id (g ev2) Queue.active).timeheap
          = min_heap_erase b1.timeheap id := by
        rw [remBase_timeheap_active, updateEv_timeheap, hth2]
      rcases main (remBase (updateEv B2 id g) id (g ev2) Queue.active) _
          hl3 hto3 hheap with ⟨b2, hb2, h1, h2, h3⟩
      exact ⟨b2, hb2, h1, h2, h3⟩
    · rw [if_neg hpn]
      have hfa : flagsHas ev2.ev_flags Queue.active = true := hact.1
      rw [event_queue_remove_eq B2 id ev2 Queue.active hl2 hfa]
      simp only []
      have hl3 : lookupEv (remBase B2 id ev2 Queue.active) id
          = some { ev2 with ev_flags := flagsClear ev2.ev_flags Queue.active } :=
        lookupEv_remBase_self B2 id ev2 Queue.active hl2
      have hto3 : ({ ev2 with
          ev_flags := flagsClear ev2.ev_flags Queue.active } : Event).ev_flags.timeout
          = false := by
        simp [flagsClear, hto2]
      have hheap : (remBase B2 id ev2 Queue.active).timeheap
          = min_heap_erase b1.timeheap id := by
        rw [remBase_timeheap_active, hth2]
      rcases main (remBase B2 id ev2 Queue.active) _ hl3 hto3 hheap
        with ⟨b2, hb2, h1, h2, h3⟩
      exact ⟨b2, hb2, h1, h2, h3⟩
  · rw [if_neg hact]
    simp only []
    rcases main B2 ev2 hl2 hto2 hth2 with ⟨b2, hb2, h1, h2, h3⟩
    exact ⟨b2, hb2, h1, h2, h3⟩
/-- C7: event_add with a new timeout on an event already in the timer
heap (TIMEOUT set) removes the old heap entry and pushes a new one whose
deadline is now + timeout: the replaced entry keeps the heap size
unchanged and the stored deadline equals now + t. -/
theorem claim_C7 (env : AddEnv) (b : Base) (id : Nat) (t : Int) (ev : Event) (b' : Base)
    (hl : lookupEv b id = some ev) (ht : ev.ev_flags.timeout = true)
    (hmem : id ∈ b.timeheap)
    (hr : event_add env b id (some t) = some (0, b')) :
    b'.timeheap = min_heap_push (min_heap_erase b.timeheap id) id
    ∧ b'.timeheap.length = b.timeheap.length
    ∧ (lookupEv b' id).map (fun e => e.ev_timeout) = some (env.now + t)
    ∧ (lookupEv b' id).map (fun e => e.ev_flags.timeout) = some true := by
  have hlen : (min_heap_push (min_heap_erase b.timeheap id) id).length
      = b.timeheap.length := by
    have h0 : 0 < b.timeheap.length := List.length_pos.mpr (List.ne_nil_of_mem hmem)
    have h1 := List.length_erase_of_mem hmem
    simp only [min_heap_push, min_heap_erase, List.length_append, List.length_cons,
      List.length_nil, h1]
    omega
  have finish : ∀ (base1 : Base) (ev1 : Event),
      lookupEv base1 id = some ev1 → ev1.ev_flags.timeout = true →
      base1.timeheap = b.timeheap →
      (event_add_timeout env.now t base1 id).map (fun bb => ((0 : Int), bb))
        = some (0, b') →
      b'.timeheap = min_heap_push (min_heap_erase b.timeheap id) id
      ∧ b'.timeheap.length = b.timeheap.length
      ∧ (lookupEv b' id).map (fun e => e.ev_timeout) = some (env.now + t)
      ∧ (lookupEv b' id).map (fun e => e.ev_flags.timeout) = some true := by
    intro base1 ev1 hl1 ht1 hth1 hr1
    rcases event_add_timeout_spec env.now t base1 id ev1 hl1 ht1 with ⟨b2, hb2, hh, h2, h3⟩
    rw [hb2, Option.map_some', Option.some.injEq, Prod.mk.injEq] at hr1
    rcases hr1 with ⟨-, rfl⟩
    rw [hth1] at hh
    exact ⟨hh, by rw [hh, hlen], h2, h3⟩
  unfold event_add at hr
  rw [hl] at hr
  simp only [] at hr
  rw [if_neg (by simp [ht])] at hr
  by_cases hneed : hasRWS ev.ev_events ∧ ev.ev_flags.inserted = false
      ∧ ev.ev_flags.active = false
  · rw [if_pos hneed] at hr
    cases hbk : env.backendOk with
    | false =>
      rw [if_neg (by simp [hbk])] at hr
      simp at hr
    | true =>
      rw [if_pos hbk, event_queue_insert_eq b id ev Queue.inserted hl hneed.2.1,
        Option.map_some'] at hr
      simp only [] at hr
      rw [if_neg (by norm_num)] at hr
      refine finish (insBase b id ev Queue.inserted)
        { ev with ev_flags := flagsSet ev.ev_flags Queue.inserted }
        (lookupEv_insBase_self b id ev Queue.inserted hl)
        (by simp [flagsSet, ht])
        (insBase_timeheap_inserted b id ev) hr
  · rw [if_neg hneed] at hr
    simp only [] at hr
    rw [if_neg (by norm_num)] at hr
    exact finish b ev hl ht rfl hr

/-- Witness for C7 at a concrete input: event 0, already in the heap
with deadline 150, re-armed with timeout 50 at now = 100; the heap keeps
size 1 and the deadline becomes 150 = 100 + 50. -/
theorem claim_C7_witness :
    (lookupEv timerBase 0 = some timerEv ∧ timerEv.ev_flags.timeout = true
      ∧ 0 ∈ timerBase.timeheap
      ∧ event_add sampleEnv timerBase 0 (some 50) = some (0, c7Final))
    ∧ c7Final.timeheap.length = timerBase.timeheap.length :=
  ⟨⟨by decide, by decide, by decide, by decide⟩,
    (claim_C7 sampleEnv timerBase 0 50 timerEv c7Final (by decide) (by decide)
      (by decide) (by decide)).2.1⟩

/-! ## Queue index lemmas -/

theorem lt_length_of_mem_getQ (qs : List (List Nat)) (i : Nat) (id : Nat)
    (h : id ∈ getQ qs i) : i < qs.length := by
  by_contra hge
  rw [getQ, List.getD_eq_default _ _ (Nat.le_of_not_lt hge)] at h
  cases h

theorem getQ_setQ_self (qs : List (List Nat)) (i : Nat) (l : List Nat)
    (hi : i < qs.length) : getQ (setQ qs i l) i = l := by
  unfold getQ setQ
  induction qs generalizing i with
  | nil => cases hi
  | cons q qs ih =>
    cases i with
    | zero => rfl
    | succ n => exact ih n (Nat.lt_of_succ_lt_succ hi)

theorem getQ_setQ_ne (qs : List (List Nat)) (i j : Nat) (l : List Nat)
    (h : j ≠ i) : getQ (setQ qs i l) j = getQ qs j := by
  unfold getQ setQ
  induction qs generalizing i j with
  | nil => rfl
  | cons q qs ih =>
    cases i with
    | zero =>
      cases j with
      | zero => exact absurd rfl h
      | succ m => rfl
    | succ n =>
      cases j with
      | zero => rfl
      | succ m => exact ih n m (fun he => h (by rw [he]))

theorem setQ_length (qs : List (List Nat)) (i : Nat) (l : List Nat) :
    (setQ qs i l).length = qs.length := by
  unfold setQ
  exact List.length_set qs i l

/-! ## remBase shape lemmas -/

theorem remBase_comp_inserted (b : Base) (id : Nat) (ev : Event) :
    (remBase b id ev Queue.inserted).eventqueue = b.eventqueue.erase id
    ∧ (remBase b id ev Queue.inserted).timeheap = b.timeheap
    ∧ (remBase b id ev Queue.inserted).activequeues = b.activequeues
    ∧ (remBase b id ev Queue.inserted).event_break = b.event_break := by
  by_cases hi : ev.ev_flags.internal = false <;>
    simp [remBase, hi, updateEv]

theorem remBase_comp_timeout (b : Base) (id : Nat) (ev : Event) :
    (remBase b id ev Queue.timeout).eventqueue = b.eventqueue
    ∧ (remBase b id ev Queue.timeout).timeheap = min_heap_erase b.timeheap id
    ∧ (remBase b id ev Queue.timeout).activequeues = b.activequeues
    ∧ (remBase b id ev Queue.timeout).event_break = b.event_break := by
  by_cases hi : ev.ev_flags.internal = false <;>
    simp [remBase, hi, updateEv, min_heap_erase]

theorem remBase_comp_active (b : Base) (id : Nat) (ev : Event) :
    (remBase b id ev Queue.active).eventqueue = b.eventqueue
    ∧ (remBase b id ev Queue.active).timeheap = b.timeheap
    ∧ (remBase b id ev Queue.active).activequeues
      = setQ b.activequeues ev.ev_pri ((getQ b.activequeues ev.ev_pri).erase id)
    ∧ (remBase b id ev Queue.active).event_break = b.event_break := by
  by_cases hi : ev.ev_flags.internal = false <;>
    simp [remBase, hi, updateEv]

theorem remBase_lookup_ne (b : Base) (id : Nat) (ev : Event) (q : Queue) (k : Nat)
    (hk : k ≠ id) : lookupEv (remBase b id ev q) k = lookupEv b k := by
  rw [lookupEv_eq_of_store
      (updateEv b id (fun e => { e with ev_flags := flagsClear e.ev_flags q }))
      (remBase b id ev q) (remBase_store b id ev q) k]
  exact lookupEv_updateEv_ne b id _ k hk

theorem store_entry_unique (b : Base) (hk : (b.store.map Prod.fst).Nodup)
    (id : Nat) (ev e : Event) (hl : lookupEv b id = some ev)
    (hm : (id, e) ∈ b.store) : e = ev := by
  have := store_entry_eq_of_nodup b hk id e hm
  rw [hl] at this
  exact (Option.some.injEq _ _).mp this.symm

theorem flagsClear_keeps_false (f : EvFlags) (q q' : Queue)
    (h : flagsHas f q' = false) : flagsHas (flagsClear f q) q' = false := by
  cases q <;> cases q' <;> simp_all [flagsClear, flagsHas]

/-! ## Well-formedness preservation -/

theorem WF_remBase (b : Base) (id : Nat) (ev : Event) (q : Queue)
    (hw : WF b) (hl : lookupEv b id = some ev)
    (hflag : flagsHas ev.ev_flags q = true) :
    WF (remBase b id ev q) := by
  obtain ⟨hKN, hEN, hTN, hAN, hIM, hTM, hAM, hPR, hES, hTS, hAS, hNB⟩ := hw
  have hstore : (remBase b id ev q).store
      = b.store.map (fun p => if p.1 = id then
          (p.1, { p.2 with ev_flags := flagsClear p.2.ev_flags q }) else p) :=
    remBase_store b id ev q
  have hentry : ∀ p' ∈ (remBase b id ev q).store,
      (p'.1 ≠ id ∧ p' ∈ b.store)
      ∨ (p' = (id, { ev with ev_flags := flagsClear ev.ev_flags q })) := by
    intro p' hp'
    rw [hstore] at hp'
    rcases List.mem_map.mp hp' with ⟨p, hp, hpe⟩
    by_cases hid : p.1 = id
    · right
      have he : p.2 = ev := store_entry_unique b hKN id ev p.2 hl (by
        have : p = (p.1, p.2) := rfl
        rw [this, hid] at hp
        exact hp)
      rw [← hpe, if_pos hid, hid, he]
    · left
      rw [← hpe, if_neg hid]
      exact ⟨hid, hp⟩
  have hkeys : (remBase b id ev q).store.map Prod.fst = b.store.map Prod.fst :=
    remBase_keys b id ev q
  have hmemid : (id, ev) ∈ b.store := lookupEv_mem b id ev hl
  cases q with
  | inserted =>
    obtain ⟨hge, hgt, hga, -⟩ := remBase_comp_inserted b id ev
    refine ⟨by rw [hkeys]; exact hKN, by rw [hge]; exact hEN.erase id,
      by rw [hgt]; exact hTN, ?_, ?_, ?_, ?_, ?_, ?_, ?_, ?_, ?_⟩
    · intro i hi
      rw [hga] at hi ⊢
      exact hAN i hi
    · intro p' hp'
      rw [hge]
      rcases hentry p' hp' with ⟨hne, hmem⟩ | heq
      · rw [(hIM p' hmem)]
        constructor
        · exact fun h => List.mem_erase_of_ne hne |>.mpr h
        · exact fun h => List.mem_of_mem_erase h
      · rw [heq]
        simp only [flagsClear]
        constructor
        · intro hfalse
          cases hfalse
        · intro hmem
          exact absurd hmem (hEN.not_mem_erase)
    · intro p' hp'
      rw [hgt]
      rcases hentry p' hp' with ⟨hne, hmem⟩ | heq
      · exact hTM p' hmem
      · rw [heq]
        simp only [flagsClear]
        exact hTM (id, ev) hmemid
    · intro p' hp'
      rw [hga]
      rcases hentry p' hp' with ⟨hne, hmem⟩ | heq
      · exact hAM p' hmem
      · rw [heq]
        simp only [flagsClear]
        exact hAM (id, ev) hmemid
    · intro p' hp' i hi
      rw [hga] at hi ⊢
      rcases hentry p' hp' with ⟨hne, hmem⟩ | heq
      · exact hPR p' hmem i hi
      · rw [heq]
        exact hPR (id, ev) hmemid i hi
    · intro k hk
      rw [hge] at hk
      rw [hkeys]
      exact hES k (List.mem_of_mem_erase hk)
    · intro k hk
      rw [hgt] at hk
      rw [hkeys]
      exact hTS k hk
    · intro i hi k hk
      rw [hga] at hi hk
      rw [hkeys]
      exact hAS i hi k hk
    · intro p' hp' hbase
      rcases hentry p' hp' with ⟨hne, hmem⟩ | heq
      · exact hNB p' hmem hbase
      · rw [heq] at hbase ⊢
        rcases hNB (id, ev) hmemid hbase with ⟨x1, x2, x3⟩
        exact ⟨flagsClear_keeps_false ev.ev_flags _ Queue.inserted x1,
          flagsClear_keeps_false ev.ev_flags _ Queue.active x2,
          flagsClear_keeps_false ev.ev_flags _ Queue.timeout x3⟩
  | timeout =>
    obtain ⟨hge, hgt, hga, -⟩ := remBase_comp_timeout b id ev
    refine ⟨by rw [hkeys]; exact hKN, by rw [hge]; exact hEN,
      by rw [hgt]; exact hTN.erase id, ?_, ?_, ?_, ?_, ?_, ?_, ?_, ?_, ?_⟩
    · intro i hi
      rw [hga] at hi ⊢
      exact hAN i hi
    · intro p' hp'
      rw [hge]
      rcases hentry p' hp' with ⟨hne, hmem⟩ | heq
      · exact hIM p' hmem
      · rw [heq]
        simp only [flagsClear]
        exact hIM (id, ev) hmemid
    · intro p' hp'
      rw [hgt]
      rcases hentry p' hp' with ⟨hne, hmem⟩ | heq
      · rw [(hTM p' hmem)]
        unfold min_heap_erase
        constructor
        · exact fun h => List.mem_erase_of_ne hne |>.mpr h
        · exact fun h => List.mem_of_mem_erase h
      · rw [heq]
        simp only [flagsClear]
        unfold min_heap_erase
        constructor
        · intro hfalse
          cases hfalse
        · intro hmem
          exact absurd hmem (hTN.not_mem_erase)
    · intro p' hp'
      rw [hga]
      rcases hentry p' hp' with ⟨hne, hmem⟩ | heq
      · exact hAM p' hmem
      · rw [heq]
        simp only [flagsClear]
        exact hAM (id, ev) hmemid
    · intro p' hp' i hi
      rw [hga] at hi ⊢
      rcases hentry p' hp' with ⟨hne, hmem⟩ | heq
      · exact hPR p' hmem i hi
      · rw [heq]
        exact hPR (id, ev) hmemid i hi
    · intro k hk
      rw [hge] at hk
      rw [hkeys]
      exact hES k hk
    · intro k hk
      rw [hgt] at hk
      rw [hkeys]
      exact hTS k (List.mem_of_mem_erase hk)
    · intro i hi k hk
      rw [hga] at hi hk
      rw [hkeys]
      exact hAS i hi k hk
    · intro p' hp' hbase
      rcases hentry p' hp' with ⟨hne, hmem⟩ | heq
      · exact hNB p' hmem hbase
      · rw [heq] at hbase ⊢
        rcases hNB (id, ev) hmemid hbase with ⟨x1, x2, x3⟩
        exact ⟨flagsClear_keeps_false ev.ev_flags _ Queue.inserted x1,
          flagsClear_keeps_false ev.ev_flags _ Queue.active x2,
          flagsClear_keeps_false ev.ev_flags _ Queue.timeout x3⟩
  | active =>
    obtain ⟨hge, hgt, hga, -⟩ := remBase_comp_active b id ev
    have hprilt : ev.ev_pri < b.activequeues.length :=
      lt_length_of_mem_getQ b.activequeues ev.ev_pri id
        ((hAM (id, ev) hmemid).mp hflag)
    have hgetQ : ∀ j, getQ (remBase b id ev Queue.active).activequeues j
        = if j = ev.ev_pri then (getQ b.activequeues ev.ev_pri).erase id
          else getQ b.activequeues j := by
      intro j
      rw [hga]
      by_cases hj : j = ev.ev_pri
      · rw [if_pos hj, hj, getQ_setQ_self _ _ _ hprilt]
      · rw [if_neg hj, getQ_setQ_ne _ _ _ _ hj]
    have hlen : (remBase b id ev Queue.active).activequeues.length
        = b.activequeues.length := by
      rw [hga, setQ_length]
    have hanodup := hAN ev.ev_pri hprilt
    refine ⟨by rw [hkeys]; exact hKN, by rw [hge]; exact hEN,
      by rw [hgt]; exact hTN, ?_, ?_, ?_, ?_, ?_, ?_, ?_, ?_, ?_⟩
    · intro i hi
      rw [hlen] at hi
      rw [hgetQ i]
      by_cases hj : i = ev.ev_pri
      · rw [if_pos hj]
        exact hanodup.erase id
      · rw [if_neg hj]
        exact hAN i hi
    · intro p' hp'
      rw [hge]
      rcases hentry p' hp' with ⟨hne, hmem⟩ | heq
      · exact hIM p' hmem
      · rw [heq]
        simp only [flagsClear]
        exact hIM (id, ev) hmemid
    · intro p' hp'
      rw [hgt]
      rcases hentry p' hp' with ⟨hne, hmem⟩ | heq
      · exact hTM p' hmem
      · rw [heq]
        simp only [flagsClear]
        exact hTM (id, ev) hmemid
    · intro p' hp'
      rcases hentry p' hp' with ⟨hne, hmem⟩ | heq
      · have hpri_eq : ({ p'.2 with ev_flags := p'.2.ev_flags } : Event).ev_pri
            = p'.2.ev_pri := rfl
        rw [hgetQ p'.2.ev_pri]
        by_cases hj : p'.2.ev_pri = ev.ev_pri
        · rw [if_pos hj]
          rw [(hAM p' hmem)]
          rw [hj]
          constructor
          · exact fun h => List.mem_erase_of_ne hne |>.mpr h
          · exact fun h => List.mem_of_mem_erase h
        · rw [if_neg hj]
          exact hAM p' hmem
      · rw [heq]
        simp only [flagsClear]
        rw [hgetQ ev.ev_pri, if_pos rfl]
        constructor
        · intro hfalse
          cases hfalse
        · intro hmem
          exact absurd hmem (hanodup.not_mem_erase)
    · intro p' hp' i hi
      rw [hlen] at hi
      rw [hgetQ i] at *
      rcases hentry p' hp' with ⟨hne, hmem⟩ | heq
      · intro hk
        by_cases hj : i = ev.ev_pri
        · rw [if_pos hj] at hk
          exact hPR p' hmem i hi (hj ▸ List.mem_of_mem_erase hk)
        · rw [if_neg hj] at hk
          exact hPR p' hmem i hi hk
      · intro hk
        rw [heq]
        by_cases hj : i = ev.ev_pri
        · exact hj
        · rw [if_neg hj] at hk
          rw [heq] at hk
          exact hPR (id, ev) hmemid i hi hk
    · intro k hk
      rw [hge] at hk
      rw [hkeys]
      exact hES k hk
    · intro k hk
      rw [hgt] at hk
      rw [hkeys]
      exact hTS k hk
    · intro i hi k hk
      rw [hlen] at hi
      rw [hgetQ i] at hk
      rw [hkeys]
      by_cases hj : i = ev.ev_pri
      · rw [if_pos hj] at hk
        exact hAS ev.ev_pri hprilt k (List.mem_of_mem_erase hk)
      · rw [if_neg hj] at hk
        exact hAS i hi k hk
    · intro p' hp' hbase
      rcases hentry p' hp' with ⟨hne, hmem⟩ | heq
      · exact hNB p' hmem hbase
      · rw [heq] at hbase ⊢
        rcases hNB (id, ev) hmemid hbase with ⟨x1, x2, x3⟩
        exact ⟨flagsClear_keeps_false ev.ev_flags _ Queue.inserted x1,
          flagsClear_keeps_false ev.ev_flags _ Queue.active x2,
          flagsClear_keeps_false ev.ev_flags _ Queue.timeout x3⟩

theorem WF_updateEv (b : Base) (id : Nat) (f : Event → Event)
    (hw : WF b)
    (hf : ∀ e, (f e).ev_flags = e.ev_flags ∧ (f e).ev_pri = e.ev_pri
      ∧ (f e).hasBase = e.hasBase) :
    WF (updateEv b id f) := by
  obtain ⟨hKN, hEN, hTN, hAN, hIM, hTM, hAM, hPR, hES, hTS, hAS, hNB⟩ := hw
  have hentry : ∀ p' ∈ (updateEv b id f).store,
      ∃ p ∈ b.store, p'.1 = p.1 ∧ (p'.2.ev_flags = p.2.ev_flags
        ∧ p'.2.ev_pri = p.2.ev_pri ∧ p'.2.hasBase = p.2.hasBase) := by
    intro p' hp'
    rcases List.mem_map.mp hp' with ⟨p, hp, hpe⟩
    refine ⟨p, hp, ?_⟩
    by_cases hid : p.1 = id
    · rw [← hpe, if_pos hid]
      exact ⟨rfl, (hf p.2).1, (hf p.2).2.1, (hf p.2).2.2⟩
    · rw [← hpe, if_neg hid]
      exact ⟨rfl, rfl, rfl, rfl⟩
  have hkeys := updateEv_keys b id f
  refine ⟨by rw [hkeys]; exact hKN, hEN, hTN, hAN, ?_, ?_, ?_, ?_, ?_, ?_, ?_, ?_⟩
  · intro p' hp'
    rcases hentry p' hp' with ⟨p, hp, hk, hfl, -, -⟩
    rw [hfl, hk]
    exact hIM p hp
  · intro p' hp'
    rcases hentry p' hp' with ⟨p, hp, hk, hfl, -, -⟩
    rw [hfl, hk]
    exact hTM p hp
  · intro p' hp'
    rcases hentry p' hp' with ⟨p, hp, hk, hfl, hpri, -⟩
    rw [hfl, hk, hpri]
    exact hAM p hp
  · intro p' hp' i hi
    rcases hentry p' hp' with ⟨p, hp, hk, -, hpri, -⟩
    rw [hk, hpri]
    exact hPR p hp i hi
  · intro k hk
    rw [hkeys]
    exact hES k hk
  · intro k hk
    rw [hkeys]
    exact hTS k hk
  · intro i hi k hk
    rw [hkeys]
    exact hAS i hi k hk
  · intro p' hp' hbase
    rcases hentry p' hp' with ⟨p, hp, hk, hfl, -, hhb⟩
    rw [hfl]
    rw [hhb] at hbase
    exact hNB p hp hbase

theorem WF_set_break (b : Base) (x : Bool) (hw : WF b) :
    WF { b with event_break := x } := hw

/-- Specification of the detach step of the drain on a well-formed
state whose event is ACTIVE: it succeeds, preserves well-formedness,
removes exactly the event's link from its own priority queue, leaves
every other priority queue and every other event untouched, and leaves
the event's pending-call count unchanged. -/
theorem drainDetach_spec (delOk : Bool) (b : Base) (id : Nat) (ev : Event)
    (hw : WF b) (hl : lookupEv b id = some ev) (ha : ev.ev_flags.active = true) :
    ∃ b1, drainDetach delOk b id = some b1
      ∧ WF b1
      ∧ getQ b1.activequeues ev.ev_pri = (getQ b.activequeues ev.ev_pri).erase id
      ∧ (∀ j, j ≠ ev.ev_pri → getQ b1.activequeues j = getQ b.activequeues j)
      ∧ b1.store.map Prod.fst = b.store.map Prod.fst
      ∧ b1.event_break = b.event_break
      ∧ (∀ k, k ≠ id → lookupEv b1 k = lookupEv b k)
      ∧ (lookupEv b1 id).map (fun e => e.ev_ncalls) = some ev.ev_ncalls
      ∧ (ev.ev_events &&& EV_PERSIST = 0 →
          ∀ e1, lookupEv b1 id = some e1 →
            e1.ev_flags.inserted = false ∧ e1.ev_flags.active = false
              ∧ e1.ev_flags.timeout = false) := by
  have hmemQ : id ∈ getQ b.activequeues ev.ev_pri := by
    obtain ⟨-, -, -, -, -, -, hAM, -⟩ := hw
    exact (hAM (id, ev) (lookupEv_mem b id ev hl)).mp ha
  have hprilt : ev.ev_pri < b.activequeues.length :=
    lt_length_of_mem_getQ b.activequeues ev.ev_pri id hmemQ
  unfold drainDetach
  rw [hl]
  simp only []
  by_cases hper : ev.ev_events &&& EV_PERSIST ≠ 0
  · rw [if_pos hper, event_queue_remove_eq b id ev Queue.active hl ha]
    obtain ⟨-, -, hga, hbr⟩ := remBase_comp_active b id ev
    refine ⟨remBase b id ev Queue.active, rfl,
      WF_remBase b id ev Queue.active hw hl ha, ?_, ?_,
      remBase_keys b id ev Queue.active, hbr,
      fun k hk => remBase_lookup_ne b id ev Queue.active k hk, ?_,
      fun h => absurd h hper⟩
    · rw [hga, getQ_setQ_self _ _ _ hprilt]
    · intro j hj
      rw [hga, getQ_setQ_ne _ _ _ _ hj]
    · rw [lookupEv_remBase_self b id ev Queue.active hl, Option.map_some']
  · rw [if_neg hper]
    have hb : ev.hasBase = true := by
      cases hhb : ev.hasBase with
      | true => rfl
      | false =>
        obtain ⟨-, -, -, -, -, -, -, -, -, -, -, hNB⟩ := hw
        rcases hNB (id, ev) (lookupEv_mem b id ev hl) hhb with ⟨-, hact, -⟩
        rw [ha] at hact
        cases hact
    have step1 : ∃ (B1 : Base) (e1 : Event),
        (if ev.ev_ncalls ≠ 0 ∧ ev.ev_pncalls ≠ none then
          updateEv b id (fun e => { e with ev_pncalls := some 0 }) else b) = B1
        ∧ WF B1 ∧ lookupEv B1 id = some e1
        ∧ e1.ev_flags = ev.ev_flags ∧ e1.ev_pri = ev.ev_pri
        ∧ e1.ev_ncalls = ev.ev_ncalls
        ∧ B1.activequeues = b.activequeues
        ∧ B1.event_break = b.event_break
        ∧ B1.store.map Prod.fst = b.store.map Prod.fst
        ∧ (∀ k, k ≠ id → lookupEv B1 k = lookupEv b k) := by
      by_cases hpn : ev.ev_ncalls ≠ 0 ∧ ev.ev_pncalls ≠ none
      · exact ⟨updateEv b id (fun e => { e with ev_pncalls := some 0 }),
          { ev with ev_pncalls := some 0 }, if_pos hpn,
          WF_updateEv b id _ hw (fun e => ⟨rfl, rfl, rfl⟩),
          by rw [lookupEv_updateEv_self, hl, Option.map_some'],
          rfl, rfl, rfl, rfl, rfl, updateEv_keys b id _,
          fun k hk => lookupEv_updateEv_ne b id _ k hk⟩
      · exact ⟨b, ev, if_neg hpn, hw, hl, rfl, rfl, rfl, rfl, rfl, rfl,
          fun k _ => rfl⟩
    rcases step1 with ⟨B1, e1, hs1, hw1, hl1, hfl1, hpri1, hnc1, haq1, hbr1,
      hk1, hfr1⟩
    have step2 : ∃ (B2 : Base) (e2 : Event),
        (if e1.ev_flags.timeout = true then event_queue_remove B1 id Queue.timeout
          else some B1) = some B2
        ∧ WF B2 ∧ lookupEv B2 id = some e2
        ∧ e2.ev_flags.active = ev.ev_flags.active
        ∧ e2.ev_flags.inserted = ev.ev_flags.inserted
        ∧ e2.ev_flags.timeout = false
        ∧ e2.ev_pri = ev.ev_pri ∧ e2.ev_ncalls = ev.ev_ncalls
        ∧ B2.activequeues = b.activequeues
        ∧ B2.event_break = b.event_break
        ∧ B2.store.map Prod.fst = b.store.map Prod.fst
        ∧ (∀ k, k ≠ id → lookupEv B2 k = lookupEv b k) := by
      cases ht : e1.ev_flags.timeout with
      | false =>
        rw [if_neg (by simp)]
        exact ⟨B1, e1, rfl, hw1, hl1, by rw [hfl1], by rw [hfl1], ht,
          hpri1, hnc1, haq1, hbr1, hk1, hfr1⟩
      | true =>
        rw [if_pos rfl, event_queue_remove_eq B1 id e1 Queue.timeout hl1 ht]
        obtain ⟨-, -, hga2, hbr2⟩ := remBase_comp_timeout B1 id e1
        exact ⟨remBase B1 id e1 Queue.timeout,
          { e1 with ev_flags := flagsClear e1.ev_flags Queue.timeout }, rfl,
          WF_remBase B1 id e1 Queue.timeout hw1 hl1 ht,
          lookupEv_remBase_self B1 id e1 Queue.timeout hl1,
          by simp [flagsClear, hfl1], by simp [flagsClear, hfl1],
          by simp [flagsClear],
          hpri1, hnc1,
          by rw [hga2, haq1], by rw [hbr2, hbr1],
          by rw [remBase_keys, hk1],
          fun k hk => by
            rw [remBase_lookup_ne B1 id e1 Queue.timeout k hk, hfr1 k hk]⟩
    rcases step2 with ⟨B2, e2, hs2, hw2, hl2, hact2eq, hins2eq, hto2, hpri2, hnc2,
      haq2, hbr2, hk2, hfr2⟩
    have hact2 : e2.ev_flags.active = true := by rw [hact2eq]; exact ha
    have hl3 : lookupEv (remBase B2 id e2 Queue.active) id
        = some { e2 with ev_flags := flagsClear e2.ev_flags Queue.active } :=
      lookupEv_remBase_self B2 id e2 Queue.active hl2
    have hw3 : WF (remBase B2 id e2 Queue.active) :=
      WF_remBase B2 id e2 Queue.active hw2 hl2 hact2
    obtain ⟨-, -, hga3, hbr3⟩ := remBase_comp_active B2 id e2
    have hQ3self : getQ (remBase B2 id e2 Queue.active).activequeues ev.ev_pri
        = (getQ b.activequeues ev.ev_pri).erase id := by
      rw [hga3, hpri2, haq2, getQ_setQ_self _ _ _ hprilt]
    have hQ3ne : ∀ j, j ≠ ev.ev_pri →
        getQ (remBase B2 id e2 Queue.active).activequeues j
          = getQ b.activequeues j := by
      intro j hj
      rw [hga3, hpri2, haq2, getQ_setQ_ne _ _ _ _ hj]
    have hkeys3 : (remBase B2 id e2 Queue.active).store.map Prod.fst
        = b.store.map Prod.fst := by
      rw [remBase_keys, hk2]
    have hbreak3 : (remBase B2 id e2 Queue.active).event_break = b.event_break := by
      rw [hbr3, hbr2]
    have hframe3 : ∀ k, k ≠ id →
        lookupEv (remBase B2 id e2 Queue.active) k = lookupEv b k := by
      intro k hk
      rw [remBase_lookup_ne B2 id e2 Queue.active k hk, hfr2 k hk]
    have hins3eq : ({ e2 with
        ev_flags := flagsClear e2.ev_flags Queue.active } : Event).ev_flags.inserted
        = ev.ev_flags.inserted := by
      simp [flagsClear, hins2eq]
    unfold event_del
    rw [hl]
    simp only []
    rw [if_neg (by simp [hb]), hs1, hl1]
    simp only []
    rw [hs2]
    simp only []
    rw [hl2]
    simp only []
    rw [if_pos hact2, event_queue_remove_eq B2 id e2 Queue.active hl2 hact2]
    simp only []
    rw [hl3]
    simp only []
    by_cases hins : ({ e2 with
        ev_flags := flagsClear e2.ev_flags Queue.active } : Event).ev_flags.inserted = true
    · rw [if_pos hins,
        event_queue_remove_eq (remBase B2 id e2 Queue.active) id
          { e2 with ev_flags := flagsClear e2.ev_flags Queue.active }
          Queue.inserted hl3 hins,
        Option.map_some', Option.map_some']
      obtain ⟨-, -, hga4, hbr4⟩ := remBase_comp_inserted
        (remBase B2 id e2 Queue.active) id
        { e2 with ev_flags := flagsClear e2.ev_flags Queue.active }
      refine ⟨_, rfl,
        WF_remBase (remBase B2 id e2 Queue.active) id _ Queue.inserted hw3 hl3 hins,
        ?_, ?_, ?_, ?_, ?_, ?_, ?_⟩
      · rw [hga4]
        exact hQ3self
      · intro j hj
        rw [hga4]
        exact hQ3ne j hj
      · rw [remBase_keys]
        exact hkeys3
      · rw [hbr4]
        exact hbreak3
      · intro k hk
        rw [remBase_lookup_ne _ id _ Queue.inserted k hk]
        exact hframe3 k hk
      · rw [lookupEv_remBase_self (remBase B2 id e2 Queue.active) id _
          Queue.inserted hl3, Option.map_some']
        exact congrArg some hnc2
      · intro _ e1 he1
        rw [lookupEv_remBase_self (remBase B2 id e2 Queue.active) id _
          Queue.inserted hl3] at he1
        rw [← (Option.some.injEq _ _).mp he1]
        exact ⟨rfl, rfl, hto2⟩
    · rw [if_neg hins, Option.map_some']
      refine ⟨_, rfl, hw3, hQ3self, hQ3ne, hkeys3, hbreak3, hframe3, ?_, ?_⟩
      · rw [hl3, Option.map_some']
        exact congrArg some hnc2
      · intro _ e1 he1
        rw [hl3] at he1
        rw [← (Option.some.injEq _ _).mp he1]
        refine ⟨?_, rfl, hto2⟩
        cases h3v : ({ e2 with
            ev_flags := flagsClear e2.ev_flags Queue.active } : Event).ev_flags.inserted
        · rfl
        · exact absurd h3v hins

/-! ## Call-loop lemmas -/

theorem runCalls_state (raises : Bool) (id : Nat) : ∀ (n : Nat) (b : Base),
    (runCalls raises id n b).2.1.eventqueue = b.eventqueue
    ∧ (runCalls raises id n b).2.1.timeheap = b.timeheap
    ∧ (runCalls raises id n b).2.1.activequeues = b.activequeues
    ∧ (runCalls raises id n b).2.1.store.map Prod.fst = b.store.map Prod.fst
    ∧ (∀ k, k ≠ id → lookupEv (runCalls raises id n b).2.1 k = lookupEv b k)
    ∧ (WF b → WF (runCalls raises id n b).2.1) := by
  intro n
  induction n with
  | zero =>
    intro b
    simp only [runCalls]
    exact ⟨rfl, rfl, rfl, updateEv_keys b id _,
      fun k hk => lookupEv_updateEv_ne b id _ k hk,
      fun hw => WF_updateEv b id _ hw (fun e => ⟨rfl, rfl, rfl⟩)⟩
  | succ n ih =>
    intro b
    simp only [runCalls]
    set b1 : Base := updateEv b id
      (fun e => { e with ev_ncalls := n, ev_pncalls := some n }) with hb1
    have hb1facts : b1.eventqueue = b.eventqueue ∧ b1.timeheap = b.timeheap
        ∧ b1.activequeues = b.activequeues
        ∧ b1.store.map Prod.fst = b.store.map Prod.fst
        ∧ (∀ k, k ≠ id → lookupEv b1 k = lookupEv b k)
        ∧ (WF b → WF b1) := by
      exact ⟨rfl, rfl, rfl, updateEv_keys b id _,
        fun k hk => lookupEv_updateEv_ne b id _ k hk,
        fun hw => WF_updateEv b id _ hw (fun e => ⟨rfl, rfl, rfl⟩)⟩
    set b2 : Base := if raises = true then { b1 with event_break := true } else b1
      with hb2
    have hb2facts : b2.eventqueue = b.eventqueue ∧ b2.timeheap = b.timeheap
        ∧ b2.activequeues = b.activequeues
        ∧ b2.store.map Prod.fst = b.store.map Prod.fst
        ∧ (∀ k, k ≠ id → lookupEv b2 k = lookupEv b k)
        ∧ (WF b → WF b2) := by
      rw [hb2]
      cases raises with
      | true =>
        simp only [if_pos rfl]
        exact ⟨hb1facts.1, hb1facts.2.1, hb1facts.2.2.1, hb1facts.2.2.2.1,
          fun k hk => hb1facts.2.2.2.2.1 k hk,
          fun hw => WF_set_break b1 true (hb1facts.2.2.2.2.2 hw)⟩
      | false =>
        rw [if_neg (by decide)]
        exact hb1facts
    by_cases hbr : b2.event_break = true
    · rw [if_pos hbr]
      simp only []
      exact ⟨hb2facts.1, hb2facts.2.1, hb2facts.2.2.1,
        by rw [updateEv_keys]; exact hb2facts.2.2.2.1,
        fun k hk => by
          rw [lookupEv_updateEv_ne b2 id _ k hk]
          exact hb2facts.2.2.2.2.1 k hk,
        fun hw => WF_updateEv b2 id _ (hb2facts.2.2.2.2.2 hw)
          (fun e => ⟨rfl, rfl, rfl⟩)⟩
    · rw [if_neg hbr]
      simp only []
      rcases ih b2 with ⟨i1, i2, i3, i4, i5, i6⟩
      exact ⟨by rw [i1]; exact hb2facts.1, by rw [i2]; exact hb2facts.2.1,
        by rw [i3]; exact hb2facts.2.2.1,
        by rw [i4]; exact hb2facts.2.2.2.1,
        fun k hk => by rw [i5 k hk]; exact hb2facts.2.2.2.2.1 k hk,
        fun hw => i6 (hb2facts.2.2.2.2.2 hw)⟩

theorem runCalls_trace_ids (raises : Bool) (id : Nat) : ∀ (n : Nat) (b : Base),
    ∀ x ∈ (runCalls raises id n b).2.2, x.1 = id := by
  intro n
  induction n with
  | zero =>
    intro b x hx
    simp only [runCalls] at hx
    cases hx
  | succ n ih =>
    intro b x hx
    simp only [runCalls] at hx
    by_cases hbr : (if raises = true then
        { (updateEv b id (fun e => { e with ev_ncalls := n, ev_pncalls := some n }))
          with event_break := true }
        else (updateEv b id
          (fun e => { e with ev_ncalls := n, ev_pncalls := some n }))).event_break = true
    · rw [if_pos hbr] at hx
      simp only [] at hx
      rcases List.mem_singleton.mp hx with rfl
      rfl
    · rw [if_neg hbr] at hx
      simp only [] at hx
      rcases List.mem_cons.mp hx with rfl | htail
      · rfl
      · exact ih _ x htail

theorem runCalls_nostop (id : Nat) : ∀ (n : Nat) (b : Base),
    b.event_break = false → (runCalls false id n b).1 = false := by
  intro n
  induction n with
  | zero => intro b _; rfl
  | succ n ih =>
    intro b hbk
    simp only [runCalls]
    simp only [Bool.false_eq_true, if_false, updateEv_event_break, hbk]
    exact ih _ (by rw [updateEv_event_break]; exact hbk)

theorem runCalls_completed (raises : Bool) (id : Nat) : ∀ (n : Nat) (b : Base),
    (runCalls raises id n b).1 = false →
    n = 0 ∨ (raises = false ∧ b.event_break = false) := by
  intro n
  induction n with
  | zero => intro b _; exact Or.inl rfl
  | succ n _ =>
    intro b hst
    right
    cases hra : raises with
    | true =>
      rw [hra] at hst
      simp [runCalls] at hst
    | false =>
      refine ⟨rfl, ?_⟩
      cases hbk : b.event_break with
      | false => rfl
      | true =>
        rw [hra] at hst
        simp [runCalls, updateEv_event_break, hbk] at hst

theorem runCalls_stopped_trace (raises : Bool) (id : Nat) : ∀ (n : Nat) (b : Base),
    (runCalls raises id n b).1 = true →
    ∃ v, (runCalls raises id n b).2.2 = [(id, v)] := by
  intro n
  induction n with
  | zero =>
    intro b h
    cases h
  | succ n _ =>
    intro b h
    simp only [runCalls] at h ⊢
    by_cases hbr : (if raises = true then
        { (updateEv b id (fun e => { e with ev_ncalls := n, ev_pncalls := some n }))
          with event_break := true }
        else (updateEv b id
          (fun e => { e with ev_ncalls := n, ev_pncalls := some n }))).event_break = true
    · rw [if_pos hbr] at h ⊢
      exact ⟨_, rfl⟩
    · rw [if_neg hbr] at h ⊢
      simp only [] at h
      exfalso
      cases hra : raises with
      | true =>
        rw [hra] at hbr
        exact hbr rfl
      | false =>
        rw [hra] at h hbr
        rw [if_neg (by decide)] at h hbr
        have hb2 : (updateEv b id (fun e =>
            { e with ev_ncalls := n, ev_pncalls := some n })).event_break = false := by
          cases hx : (updateEv b id (fun e =>
              { e with ev_ncalls := n, ev_pncalls := some n })).event_break
          · rfl
          · exact absurd hx hbr
        rw [runCalls_nostop id n _ hb2] at h
        cases h

theorem runCalls_pncalls (raises : Bool) (id : Nat) : ∀ (n : Nat) (b : Base) (e : Event),
    lookupEv (runCalls raises id n b).2.1 id = some e → e.ev_pncalls = none := by
  intro n
  induction n with
  | zero =>
    intro b e h
    simp only [runCalls] at h
    rw [lookupEv_updateEv_self] at h
    rcases hlb : lookupEv b id with - | e0
    · rw [hlb] at h; cases h
    · rw [hlb, Option.map_some'] at h
      rw [← (Option.some.injEq _ _).mp h]
  | succ n ih =>
    intro b e h
    simp only [runCalls] at h
    by_cases hbr : (if raises = true then
        { (updateEv b id (fun e => { e with ev_ncalls := n, ev_pncalls := some n }))
          with event_break := true }
        else (updateEv b id
          (fun e => { e with ev_ncalls := n, ev_pncalls := some n }))).event_break = true
    · rw [if_pos hbr] at h
      simp only [] at h
      rw [lookupEv_updateEv_self] at h
      rcases hlb : lookupEv _ id with - | e0
      · rw [hlb] at h; cases h
      · rw [hlb, Option.map_some'] at h
        rw [← (Option.some.injEq _ _).mp h]
    · rw [if_neg hbr] at h
      simp only [] at h
      exact ih _ e h

/-! ## Drain-loop specification -/

theorem dropLast_append_ne_nil (l1 l2 : List (Nat × Nat)) (h : l2 ≠ []) :
    (l1 ++ l2).dropLast = l1 ++ l2.dropLast := by
  induction l1 with
  | nil => rfl
  | cons x xs ih =>
    cases hxs : xs ++ l2 with
    | nil =>
      rcases List.append_eq_nil.mp hxs with ⟨-, h2⟩
      exact absurd h2 h
    | cons y ys =>
      rw [List.cons_append, hxs, List.dropLast_cons₂, ← hxs, ih]
      rfl

theorem drainLoop_spec (raisers : List Nat) (delOk : Bool) (i : Nat) :
    ∀ (fuel : Nat) (b b' : Base) (tr : List (Nat × Nat)),
    WF b →
    drainLoop raisers delOk i fuel b = some (b', tr) →
    WF b'
    ∧ (∀ j, j ≠ i → getQ b'.activequeues j = getQ b.activequeues j)
    ∧ (getQ b'.activequeues i) <:+ (getQ b.activequeues i)
    ∧ (∀ x ∈ tr, x.1 ∈ getQ b.activequeues i)
    ∧ (∀ k, k ∉ getQ b.activequeues i → lookupEv b' k = lookupEv b k)
    ∧ (∀ x ∈ tr.dropLast, raisers.contains x.1 = false)
    ∧ (∀ x ∈ tr, ∀ e, lookupEv b' x.1 = some e → e.ev_pncalls = none) := by
  intro fuel
  induction fuel with
  | zero =>
    intro b b' tr hw hr
    rw [drainLoop, Option.some.injEq, Prod.mk.injEq] at hr
    rcases hr with ⟨rfl, rfl⟩
    exact ⟨hw, fun j _ => rfl, List.suffix_rfl,
      fun x hx => absurd hx (List.not_mem_nil x),
      fun k _ => rfl, fun x hx => absurd hx (List.not_mem_nil x),
      fun x hx e _ => absurd hx (List.not_mem_nil x)⟩
  | succ fuel ih =>
    intro b b' tr hw hr
    rw [drainLoop] at hr
    rcases hql : getQ b.activequeues i with - | ⟨id, tlq⟩
    · rw [hql] at hr
      simp only [List.head?_nil] at hr
      rw [Option.some.injEq, Prod.mk.injEq] at hr
      rcases hr with ⟨rfl, rfl⟩
      exact ⟨hw, fun j _ => rfl, by rw [hql], fun x hx => absurd hx (List.not_mem_nil x),
        fun k _ => rfl, fun x hx => absurd hx (List.not_mem_nil x),
        fun x hx e _ => absurd hx (List.not_mem_nil x)⟩
    · rw [hql] at hr
      simp only [List.head?_cons] at hr
      have hidq : id ∈ getQ b.activequeues i := by rw [hql]; exact List.mem_cons_self id tlq
      have hilt : i < b.activequeues.length :=
        lt_length_of_mem_getQ b.activequeues i id hidq
      have hw' := hw
      obtain ⟨hKN, hEN, hTN, hAN, hIM, hTM, hAM, hPR, hES, hTS, hAS, hNB⟩ := hw'
      have hkey : id ∈ b.store.map Prod.fst := hAS i hilt id hidq
      rcases hlev : lookupEv b id with - | ev
      · have := lookupEv_isSome_of_mem_keys b id hkey
        rw [hlev] at this
        cases this
      have hpriq : i = ev.ev_pri := hPR (id, ev) (lookupEv_mem b id ev hlev) i hilt hidq
      have ha : ev.ev_flags.active = true := by
        refine (hAM (id, ev) (lookupEv_mem b id ev hlev)).mpr ?_
        rw [← hpriq]
        exact hidq
      have hnodupq : (id :: tlq).Nodup := by
        rw [← hql]
        exact hAN i hilt
      have hidtl : id ∉ tlq := (List.nodup_cons.mp hnodupq).1
      rcases drainDetach_spec delOk b id ev hw hlev ha with
        ⟨b1, hdet, hw1, hq1self, hq1ne, hk1, hbr1, hfr1, hnc1, -⟩
      have hq1i : getQ b1.activequeues i = tlq := by
        rw [hpriq] at hql ⊢
        rw [hq1self, hql, List.erase_cons_head]
      rw [hdet] at hr
      simp only [] at hr
      rcases hlk1 : lookupEv b1 id with - | ev1
      · rw [hlk1] at hnc1
        cases hnc1
      rw [hlk1] at hr hnc1
      rw [Option.map_some', Option.some.injEq] at hnc1
      simp only [] at hr
      set B2 : Base := updateEv b1 id
        (fun e => { e with ev_pncalls := some e.ev_ncalls }) with hB2
      have hwB2 : WF B2 := WF_updateEv b1 id _ hw1 (fun e => ⟨rfl, rfl, rfl⟩)
      have hqB2 : ∀ j, getQ B2.activequeues j = getQ b1.activequeues j := fun j => rfl
      set R := runCalls (raisers.contains id) id ev1.ev_ncalls B2 with hR
      rcases runCalls_state (raisers.contains id) id ev1.ev_ncalls B2 with
        ⟨-, -, hRaq, hRkeys, hRfr, hRwf⟩
      have hRq : ∀ j, getQ R.2.1.activequeues j = getQ b1.activequeues j := by
        intro j
        rw [← hR] at hRaq
        rw [hRaq]
        exact hqB2 j
      have hRlookup_ne : ∀ k, k ≠ id → lookupEv R.2.1 k = lookupEv b k := by
        intro k hk
        rw [← hR] at hRfr
        rw [hRfr k hk, lookupEv_updateEv_ne b1 id _ k hk, hfr1 k hk]
      have hRwf' : WF R.2.1 := by
        rw [hR]
        exact hRwf hwB2
      have hRids : ∀ x ∈ R.2.2, x.1 = id := by
        rw [hR]
        exact runCalls_trace_ids (raisers.contains id) id ev1.ev_ncalls B2
      have hRpnc : ∀ e, lookupEv R.2.1 id = some e → e.ev_pncalls = none := by
        rw [hR]
        exact fun e h => runCalls_pncalls (raisers.contains id) id ev1.ev_ncalls B2 e h
      by_cases hstop : R.1 = true
      · rw [if_pos hstop] at hr
        rw [Option.some.injEq, Prod.mk.injEq] at hr
        rcases hr with ⟨rfl, rfl⟩
        rcases runCalls_stopped_trace (raisers.contains id) id ev1.ev_ncalls B2
          (hR ▸ hstop) with ⟨v, hv⟩
        refine ⟨hRwf', ?_, ?_, ?_, ?_, ?_, ?_⟩
        · intro j hj
          rw [hRq j]
          rw [hpriq] at hj
          exact hq1ne j hj
        · rw [hRq i, hq1i]
          exact List.suffix_cons id tlq
        · intro x hx
          rw [hRids x hx]
          exact List.mem_cons_self id tlq
        · intro k hk
          exact hRlookup_ne k (fun he => hk (he ▸ List.mem_cons_self id tlq))
        · intro x hx
          rw [hR, hv] at hx
          simp at hx
        · intro x hx e he
          rw [hRids x hx] at he
          exact hRpnc e he
      · rw [if_neg hstop] at hr
        rcases hrec : drainLoop raisers delOk i fuel R.2.1 with - | ⟨bf, t2⟩
        · rw [hrec] at hr
          cases hr
        rw [hrec] at hr
        simp only [] at hr
        rw [Option.some.injEq, Prod.mk.injEq] at hr
        rcases hr with ⟨rfl, rfl⟩
        rcases ih R.2.1 bf t2 hRwf' hrec with
          ⟨hwf, hfrj, hsuf, htrq, hlkf, hdlf, hpncf⟩
        have hRfalse : R.1 = false := by
          cases hR1 : R.1
          · rfl
          · exact absurd hR1 hstop
        have hnoraise : ∀ x ∈ R.2.2, raisers.contains x.1 = false := by
          intro x hx
          rcases runCalls_completed (raisers.contains id) id ev1.ev_ncalls B2
            (by rw [← hR]; exact hRfalse) with hn0 | ⟨hra, -⟩
          · rw [hR, hn0] at hx
            simp only [runCalls] at hx
            cases hx
          · rw [hRids x hx]
            exact hra
        refine ⟨hwf, ?_, ?_, ?_, ?_, ?_, ?_⟩
        · intro j hj
          rw [hfrj j hj, hRq j]
          rw [hpriq] at hj
          exact hq1ne j hj
        · have h1 : getQ bf.activequeues i <:+ tlq := by
            rw [← hq1i, ← hRq i]
            exact hsuf
          exact h1.trans (List.suffix_cons id tlq)
        · intro x hx
          rcases List.mem_append.mp hx with hx1 | hx2
          · rw [hRids x hx1]
            exact List.mem_cons_self id tlq
          · have := htrq x hx2
            rw [hRq i, hq1i] at this
            exact List.mem_cons_of_mem id this
        · intro k hk
          have hkid : k ≠ id := fun he => hk (he ▸ List.mem_cons_self id tlq)
          have hktl : k ∉ tlq := fun hm => hk (List.mem_cons_of_mem id hm)
          rw [hlkf k (by rw [hRq i, hq1i]; exact hktl)]
          exact hRlookup_ne k hkid
        · intro x hx
          by_cases ht2 : t2 = []
          · rw [ht2, List.append_nil] at hx
            exact hnoraise x (List.dropLast_sublist _ |>.mem hx)
          · rw [dropLast_append_ne_nil _ _ ht2] at hx
            rcases List.mem_append.mp hx with hx1 | hx2
            · exact hnoraise x hx1
            · exact hdlf x hx2
        · intro x hx e he
          rcases List.mem_append.mp hx with hx1 | hx2
          · rw [hRids x hx1] at he
            rw [hlkf id (by rw [hRq i, hq1i]; exact hidtl)] at he
            exact hRpnc e he
          · exact hpncf x hx2 e he

theorem lowestNonEmpty_spec (qs : List (List Nat)) :
    ∀ i q, lowestNonEmpty qs = some (i, q) →
      q = getQ qs i ∧ q ≠ [] ∧ ∀ j, j < i → getQ qs j = [] := by
  induction qs with
  | nil =>
    intro i q h
    cases h
  | cons hd tl ih =>
    intro i q h
    unfold lowestNonEmpty at h
    by_cases hhd : hd ≠ []
    · rw [if_pos hhd, Option.some.injEq, Prod.mk.injEq] at h
      rcases h with ⟨h1, h2⟩
      rw [← h1, ← h2]
      exact ⟨rfl, hhd, fun j hj => absurd hj (Nat.not_lt_zero j)⟩
    · rw [if_neg hhd] at h
      rcases hlne : lowestNonEmpty tl with - | p
      · rw [hlne] at h
        cases h
      · rw [hlne, Option.map_some', Option.some.injEq, Prod.mk.injEq] at h
        rcases h with ⟨h1, h2⟩
        rcases ih p.1 p.2 (by rw [hlne]) with ⟨g1, g2, g3⟩
        rw [← h1, ← h2]
        refine ⟨g1, g2, ?_⟩
        intro j hj
        cases j with
        | zero => exact not_not.mp hhd
        | succ m => exact g3 m (Nat.lt_of_succ_lt_succ hj)

/-- C4: a single call of the active-queue drain processes exactly one
priority level, the lowest-indexed non-empty queue: every queue with a
strictly smaller index is empty, every invoked event came from that one
queue, and every other priority queue is left exactly as it was. -/
theorem claim_C4 (raisers : List Nat) (delOk : Bool) (b b' : Base)
    (i : Nat) (q : List Nat) (tr : List (Nat × Nat)) (hw : WF b)
    (hlow : lowestNonEmpty b.activequeues = some (i, q))
    (hr : event_process_active raisers delOk b = some (b', tr)) :
    q = getQ b.activequeues i ∧ q ≠ []
    ∧ (∀ j, j < i → getQ b.activequeues j = [])
    ∧ (∀ x ∈ tr, x.1 ∈ getQ b.activequeues i)
    ∧ (∀ j, j ≠ i → getQ b'.activequeues j = getQ b.activequeues j) := by
  rcases lowestNonEmpty_spec b.activequeues i q hlow with ⟨h1, h2, h3⟩
  unfold event_process_active at hr
  rw [hlow] at hr
  simp only [] at hr
  rcases drainLoop_spec raisers delOk i q.length b b' tr hw hr with
    ⟨-, hfr, -, htr, -, -, -⟩
  exact ⟨h1, h2, h3, htr, hfr⟩

theorem claim_C4_witness :
    WF c45Base
    ∧ lowestNonEmpty c45Base.activequeues = some (0, [0, 1])
    ∧ event_process_active [0] true c45Base = some (c45Final.1, c45Final.2)
    ∧ ([0, 1] : List Nat) = getQ c45Base.activequeues 0 :=
  ⟨by unfold WF; decide, by decide, by decide,
    (claim_C4 [0] true c45Base c45Final.1 0 [0, 1] c45Final.2
      (by unfold WF; decide) (by decide) (by decide)).1⟩

/-- C5: once a callback raises the break, no later invocation happens in
that drain: every trace entry except possibly the last is a non-raiser,
the pncalls channel of every invoked event is cleared, and the remaining
events stay queued — the drained queue's leftover is a suffix of the
original queue and the other priority queues are untouched. -/
theorem claim_C5 (raisers : List Nat) (delOk : Bool) (b b' : Base)
    (i : Nat) (q : List Nat) (tr : List (Nat × Nat)) (hw : WF b)
    (hlow : lowestNonEmpty b.activequeues = some (i, q))
    (hr : event_process_active raisers delOk b = some (b', tr)) :
    (∀ x ∈ tr.dropLast, raisers.contains x.1 = false)
    ∧ (∀ x ∈ tr, ∀ e, lookupEv b' x.1 = some e → e.ev_pncalls = none)
    ∧ (getQ b'.activequeues i) <:+ q
    ∧ (∀ j, j ≠ i → getQ b'.activequeues j = getQ b.activequeues j) := by
  rcases lowestNonEmpty_spec b.activequeues i q hlow with ⟨h1, -, -⟩
  unfold event_process_active at hr
  rw [hlow] at hr
  simp only [] at hr
  rcases drainLoop_spec raisers delOk i q.length b b' tr hw hr with
    ⟨-, hfr, hsuf, -, -, hnor, hpnc⟩
  refine ⟨hnor, hpnc, ?_, hfr⟩
  rw [h1]
  exact hsuf

theorem claim_C5_witness :
    WF c45Base
    ∧ lowestNonEmpty c45Base.activequeues = some (0, [0, 1])
    ∧ event_process_active [0] true c45Base = some (c45Final.1, c45Final.2)
    ∧ (getQ c45Final.1.activequeues 0) <:+ [0, 1] :=
  ⟨by unfold WF; decide, by decide, by decide,
    (claim_C5 [0] true c45Base c45Final.1 0 [0, 1] c45Final.2
      (by unfold WF; decide) (by decide) (by decide)).2.2.1⟩

/-- C3: when the drain detaches an event before invoking its callback, a
PERSIST event only loses its ACTIVE link — its INSERTED and TIMEOUT flags,
the registered list and the timer heap are unchanged, and only its own
priority queue loses the link — while a non-PERSIST event is fully
deleted: all three lifecycle flags are cleared and it is a member of none
of the registered list, the timer heap, or any priority queue. -/
theorem claim_C3 (delOk : Bool) (b : Base) (id : Nat) (ev : Event)
    (hw : WF b) (hl : lookupEv b id = some ev)
    (ha : ev.ev_flags.active = true) :
    ((ev.ev_events &&& EV_PERSIST ≠ 0) →
      drainDetach delOk b id = some (remBase b id ev Queue.active)
      ∧ lookupEv (remBase b id ev Queue.active) id
        = some { ev with ev_flags := flagsClear ev.ev_flags Queue.active }
      ∧ (flagsClear ev.ev_flags Queue.active).inserted = ev.ev_flags.inserted
      ∧ (flagsClear ev.ev_flags Queue.active).timeout = ev.ev_flags.timeout
      ∧ (flagsClear ev.ev_flags Queue.active).active = false
      ∧ (remBase b id ev Queue.active).eventqueue = b.eventqueue
      ∧ (remBase b id ev Queue.active).timeheap = b.timeheap
      ∧ getQ (remBase b id ev Queue.active).activequeues ev.ev_pri
          = (getQ b.activequeues ev.ev_pri).erase id
      ∧ (∀ j, j ≠ ev.ev_pri → getQ (remBase b id ev Queue.active).activequeues j
          = getQ b.activequeues j))
    ∧ ((ev.ev_events &&& EV_PERSIST = 0) →
      ∃ b1, drainDetach delOk b id = some b1
        ∧ (∀ e1, lookupEv b1 id = some e1 →
            e1.ev_flags.inserted = false ∧ e1.ev_flags.active = false
              ∧ e1.ev_flags.timeout = false)
        ∧ id ∉ b1.eventqueue
        ∧ id ∉ b1.timeheap
        ∧ (∀ j, id ∉ getQ b1.activequeues j)) := by
  constructor
  · intro hper
    have hmm := lookupEv_mem b id ev hl
    have hmemQ : id ∈ getQ b.activequeues ev.ev_pri := by
      obtain ⟨-, -, -, -, -, -, hAM, -⟩ := hw
      exact (hAM (id, ev) hmm).mp ha
    have hprilt : ev.ev_pri < b.activequeues.length :=
      lt_length_of_mem_getQ b.activequeues ev.ev_pri id hmemQ
    refine ⟨?_, lookupEv_remBase_self b id ev Queue.active hl, rfl, rfl, rfl,
      (remBase_comp_active b id ev).1, (remBase_comp_active b id ev).2.1, ?_, ?_⟩
    · unfold drainDetach
      rw [hl]
      simp only []
      rw [if_pos hper]
      exact event_queue_remove_eq b id ev Queue.active hl ha
    · rw [(remBase_comp_active b id ev).2.2.1, getQ_setQ_self _ _ _ hprilt]
    · intro j hj
      rw [(remBase_comp_active b id ev).2.2.1, getQ_setQ_ne _ _ _ _ hj]
  · intro hper0
    rcases drainDetach_spec delOk b id ev hw hl ha with
      ⟨b1, hdet, hw1, -, -, -, -, -, hnc1, hfl1⟩
    obtain ⟨-, -, -, -, hIM1, hTM1, hAM1, hPR1, -, -, -, -⟩ := hw1
    rcases hlk : lookupEv b1 id with - | e1
    · rw [hlk] at hnc1
      cases hnc1
    have hm1 : (id, e1) ∈ b1.store := lookupEv_mem b1 id e1 hlk
    rcases hfl1 hper0 e1 hlk with ⟨hf1, hf2, hf3⟩
    refine ⟨b1, hdet, ?_, ?_, ?_, ?_⟩
    · intro e2 he2
      rw [hlk] at he2
      rw [← (Option.some.injEq _ _).mp he2]
      exact ⟨hf1, hf2, hf3⟩
    · intro hmem
      have h2 := (hIM1 (id, e1) hm1).mpr hmem
      rw [hf1] at h2
      cases h2
    · intro hmem
      have h2 := (hTM1 (id, e1) hm1).mpr hmem
      rw [hf3] at h2
      cases h2
    · intro j hmem
      have hjlt := lt_length_of_mem_getQ b1.activequeues j id hmem
      have hj := hPR1 (id, e1) hm1 j hjlt hmem
      rw [hj] at hmem
      have h2 := (hAM1 (id, e1) hm1).mpr hmem
      rw [hf2] at h2
      cases h2

theorem claim_C3_witness :
    WF persistBase
    ∧ lookupEv persistBase 0 = some persistEv
    ∧ persistEv.ev_flags.active = true
    ∧ persistEv.ev_events &&& EV_PERSIST ≠ 0
    ∧ drainDetach true persistBase 0
      = some (remBase persistBase 0 persistEv Queue.active) :=
  ⟨by unfold WF; decide, by decide, by decide, by decide,
    ((claim_C3 true persistBase 0 persistEv
      (by unfold WF; decide) (by decide) (by decide)).1 (by decide)).1⟩

end LibeventCore
